import Mathlib

/-!
Shallow embedding of the sports-article relevance-graph core of the
repository: the county adjacency table (`src/utils/county-data.js`), the
relationship detector (`src/graph/relationship-builder.js`), the graph store
(`src/graph/article-graph.js`), the distance engine
(`src/graph/distance-calculator.js`) and the service facade
(`src/services/graph-service.js`).  JavaScript numbers are modelled as `Rat`
(every numeric literal in the code is an exact decimal and the only
arithmetic is addition, division and max); `Infinity` is modelled by `none`
in an `Option Rat`; thrown exceptions by `Except String`.
-/

namespace ArticleRel

/-- ASCII lower-casing of one character (the club, league, team and county
names handled by the system are ASCII). -/
def lowerChar (c : Char) : Char :=
  if 'A' ≤ c ∧ c ≤ 'Z' then Char.ofNat (c.toNat + 32) else c

/-- JS `s.toLowerCase()` on the ASCII names this system handles. -/
def toLowerStr (s : String) : String := String.mk (s.data.map lowerChar)

def isSpaceChar (c : Char) : Bool := c = ' ' ∨ c = '\t' ∨ c = '\n' ∨ c = '\r'

/-- JS `s.trim()`: strip leading and trailing whitespace. -/
def trimStr (s : String) : String :=
  String.mk (((s.data.dropWhile isSpaceChar).reverse.dropWhile isSpaceChar).reverse)

/-- JS `s.toLowerCase().trim()` as used throughout the relationship builder. -/
def normName (s : String) : String := trimStr (toLowerStr s)

/-- JS `array.filter((v, i, a) => a.indexOf(v) === i)` and `new Set(...)`
insertion-order deduplication: keep the first occurrence of each element. -/
def firstDedup (l : List String) : List String :=
  l.foldl (fun acc x => if acc.contains x then acc else acc ++ [x]) []

/-! County data (`src/utils/county-data.js`). -/

/-- The static `COUNTY_ADJACENCY` object, as an association list in source
order. -/
def COUNTY_ADJACENCY : List (String × List String) := [
  ("Dublin", ["Meath", "Kildare", "Wicklow"]),
  ("Meath", ["Dublin", "Kildare", "Westmeath", "Offaly", "Louth", "Cavan"]),
  ("Kildare", ["Dublin", "Meath", "Wicklow", "Carlow", "Laois", "Offaly", "Westmeath"]),
  ("Wicklow", ["Dublin", "Kildare", "Carlow", "Wexford"]),
  ("Carlow", ["Kildare", "Wicklow", "Wexford", "Kilkenny", "Laois"]),
  ("Wexford", ["Carlow", "Wicklow", "Kilkenny", "Waterford"]),
  ("Kilkenny", ["Carlow", "Wexford", "Waterford", "Tipperary", "Laois"]),
  ("Waterford", ["Wexford", "Kilkenny", "Tipperary", "Cork", "Limerick"]),
  ("Cork", ["Waterford", "Kerry", "Limerick", "Tipperary"]),
  ("Kerry", ["Cork", "Limerick"]),
  ("Limerick", ["Kerry", "Cork", "Waterford", "Tipperary", "Clare"]),
  ("Tipperary", ["Kilkenny", "Waterford", "Cork", "Limerick", "Clare", "Offaly", "Laois"]),
  ("Clare", ["Limerick", "Tipperary", "Galway", "Roscommon"]),
  ("Laois", ["Kildare", "Carlow", "Kilkenny", "Tipperary", "Offaly", "Westmeath"]),
  ("Offaly", ["Meath", "Kildare", "Laois", "Tipperary", "Westmeath", "Roscommon"]),
  ("Westmeath", ["Meath", "Kildare", "Offaly", "Roscommon", "Longford"]),
  ("Roscommon", ["Offaly", "Westmeath", "Longford", "Leitrim", "Sligo", "Galway", "Clare"]),
  ("Galway", ["Clare", "Roscommon", "Mayo"]),
  ("Mayo", ["Galway", "Roscommon", "Sligo"]),
  ("Sligo", ["Roscommon", "Mayo", "Leitrim", "Donegal"]),
  ("Leitrim", ["Roscommon", "Sligo", "Donegal", "Cavan", "Longford"]),
  ("Longford", ["Westmeath", "Roscommon", "Leitrim", "Cavan"]),
  ("Cavan", ["Meath", "Louth", "Monaghan", "Fermanagh", "Tyrone", "Longford", "Leitrim"]),
  ("Monaghan", ["Cavan", "Louth", "Armagh", "Tyrone", "Fermanagh"]),
  ("Louth", ["Meath", "Cavan", "Monaghan", "Armagh", "Down"]),
  ("Armagh", ["Monaghan", "Louth", "Down", "Tyrone"]),
  ("Down", ["Louth", "Armagh", "Antrim"]),
  ("Tyrone", ["Cavan", "Monaghan", "Armagh", "Fermanagh", "Donegal"]),
  ("Fermanagh", ["Cavan", "Monaghan", "Tyrone", "Donegal"]),
  ("Donegal", ["Sligo", "Leitrim", "Fermanagh", "Tyrone"]),
  ("Antrim", ["Down", "Derry"]),
  ("Derry", ["Antrim", "Tyrone"])]

/-- JS `COUNTY_ADJACENCY[county]`: property lookup, `none` when absent. -/
def adjacencyLookup (county : String) : Option (List String) :=
  (COUNTY_ADJACENCY.find? (fun p => p.1 = county)).map (·.2)

/-- Result shape of `areCountiesClose`. -/
structure CloseResult where
  close : Bool
  weight : Rat
deriving Repr, DecidableEq

/-- `areCountiesClose(county1, county2)` from `county-data.js`: identical
strings are close with weight 0.8, an exact adjacency-table hit gives weight
0.4, anything else is not close.  All comparisons are case-sensitive exact
string equality, as in the source. -/
def areCountiesClose (county1 county2 : String) : CloseResult :=
  if county1 = county2 then ⟨true, 8/10⟩
  else
    match adjacencyLookup county1 with
    | some neighborsList =>
        if neighborsList.contains county2 then ⟨true, 4/10⟩ else ⟨false, 0⟩
    | none => ⟨false, 0⟩

/-! Article data model (shape of `ArticleMetadataSchema` in
`src/utils/validators.js`).  Optional JS fields that detection never reads
(club county/league, match result) are kept as plain fields so the records
stay faithful to the schema. -/

structure Club where
  name : String
  county : String
  league : Option String
deriving Repr, DecidableEq

structure MatchRec where
  homeTeam : String
  awayTeam : String
  result : Option String
deriving Repr, DecidableEq

structure Metadata where
  clubs : List Club
  «matches» : List MatchRec
  primaryCounty : String
  leagues : List String
deriving Repr, DecidableEq

structure Article where
  id : String
  title : String
  metadata : Metadata
deriving Repr, DecidableEq

/-! Relationship detector (`src/graph/relationship-builder.js`). -/

inductive RelType where
  | SAME_CLUB
  | PROXIMITY
  | MATCH_PLAYED
  | SAME_LEAGUE
deriving Repr, DecidableEq

structure Relationship where
  rtype : RelType
  weight : Rat
  sharedElements : List String
deriving Repr, DecidableEq

/-- `findSameClubRelationship`: normalized club names of both articles,
shared ones kept with the multiplicity and order they have in article 1,
each mapped back to the first original casing in article 1.  (The JS guard
`!metadata?.clubs` only fires for a missing list, never for `[]`, so it has
no counterpart here where `clubs` is always a list.) -/
def findSameClubRelationship (article1 article2 : Article) : Option Relationship :=
  let clubs1 := article1.metadata.clubs.map (fun c => normName c.name)
  let clubs2 := article2.metadata.clubs.map (fun c => normName c.name)
  let sharedClubs := clubs1.filter (fun c => clubs2.contains c)
  if sharedClubs ≠ [] then
    some { rtype := .SAME_CLUB, weight := 1,
           sharedElements := sharedClubs.map (fun club =>
             match article1.metadata.clubs.find? (fun c => normName c.name = club) with
             | some c => c.name
             | none => club) }
  else none

/-- `findProximityRelationship`: the JS falsy guard on `primaryCounty`
rejects the empty string; the relationship fires only when
`areCountiesClose` says close and the two county strings differ exactly. -/
def findProximityRelationship (article1 article2 : Article) : Option Relationship :=
  let county1 := article1.metadata.primaryCounty
  let county2 := article2.metadata.primaryCounty
  if county1 = "" ∨ county2 = "" then none
  else
    let r := areCountiesClose county1 county2
    if r.close ∧ county1 ≠ county2 then
      some { rtype := .PROXIMITY, weight := r.weight,
             sharedElements := [county1, county2] }
    else none

/-- Team set of one match: `new Set([home?.toLowerCase().trim(),
away?.toLowerCase().trim()].filter(Boolean))` — normalize, drop empties,
keep first occurrences. -/
def teamsOf (m : MatchRec) : List String :=
  firstDedup (([normName m.homeTeam, normName m.awayTeam]).filter (fun s => s ≠ ""))

/-- `setsOverlap` / nonempty set intersection: the two tests the JS code
ORs together are the same predicate. -/
def listOverlap (l1 l2 : List String) : Bool :=
  l1.any (fun x => l2.contains x)

/-- `findMatchPlayedRelationship`: every pair of matches whose team sets
overlap contributes the deduplicated union of both team sets; evidence is
the deduplicated list of `" vs "`-joined unions. -/
def findMatchPlayedRelationship (article1 article2 : Article) : Option Relationship :=
  let sharedMatches := article1.metadata.«matches».foldr (fun m1 acc =>
    (article2.metadata.«matches».filterMap (fun m2 =>
      let teams1 := teamsOf m1
      let teams2 := teamsOf m2
      if listOverlap teams1 teams2 then some (firstDedup (teams1 ++ teams2))
      else none)) ++ acc) []
  if sharedMatches ≠ [] then
    some { rtype := .MATCH_PLAYED, weight := 9/10,
           sharedElements := firstDedup (sharedMatches.map (fun ts => String.intercalate " vs " ts)) }
  else none

/-- `findSameLeagueRelationship`: shared normalized league names, mapped back
to article 1's original casing. -/
def findSameLeagueRelationship (article1 article2 : Article) : Option Relationship :=
  let leagues1 := article1.metadata.leagues.map normName
  let leagues2 := article2.metadata.leagues.map normName
  let sharedLeagues := leagues1.filter (fun l => leagues2.contains l)
  if sharedLeagues ≠ [] then
    some { rtype := .SAME_LEAGUE, weight := 1/2,
           sharedElements := sharedLeagues.map (fun league =>
             match article1.metadata.leagues.find? (fun l => normName l = league) with
             | some l => l
             | none => league) }
  else none

/-- `findRelationships`: the four detectors in source order, collecting the
ones that fire. -/
def findRelationships (article1 article2 : Article) : List Relationship :=
  (findSameClubRelationship article1 article2).toList ++
  (findProximityRelationship article1 article2).toList ++
  (findMatchPlayedRelationship article1 article2).toList ++
  (findSameLeagueRelationship article1 article2).toList

/-- `calculateEdgeWeight`: 0 for an empty list, otherwise
`Math.max(...weights)`. -/
def calculateEdgeWeight (relationships : List Relationship) : Rat :=
  match relationships with
  | [] => 0
  | r :: rs => (rs.map (·.weight)).foldl max r.weight

/-! Graph store (`src/graph/article-graph.js`).  Graphlib's undirected
simple graph is modelled as a list of articles in insertion order (the
`articles` `Map` and the node set are kept in lockstep by the source, so one
list represents both) together with a list of undirected edges. -/

structure EdgeData where
  relationships : List Relationship
  weight : Rat
deriving Repr, DecidableEq

structure Edge where
  src : String
  dst : String
  data : EdgeData
deriving Repr, DecidableEq

structure GraphState where
  articles : List Article
  edges : List Edge
deriving Repr, DecidableEq

def emptyGraph : GraphState := ⟨[], []⟩

/-- `Map.has` / `graph.hasNode`. -/
def hasNode (g : GraphState) (id : String) : Bool :=
  g.articles.any (fun a => a.id = id)

/-- `getArticle`: `articles.get(id) || null`. -/
def getArticleG (g : GraphState) (id : String) : Option Article :=
  g.articles.find? (fun a => a.id = id)

/-- Whether a stored undirected edge joins `u` and `v`. -/
def edgeMatches (e : Edge) (u v : String) : Bool :=
  (e.src = u ∧ e.dst = v) ∨ (e.src = v ∧ e.dst = u)

/-- Lookup of the undirected edge between `u` and `v` in an edge list. -/
def edgeFind (es : List Edge) (u v : String) : Option EdgeData :=
  (es.find? (fun e => edgeMatches e u v)).map (·.data)

/-- `graph.edge(u, v)`: data of the undirected edge between `u` and `v`,
`none` when absent. -/
def edgeLookup (g : GraphState) (u v : String) : Option EdgeData :=
  edgeFind g.edges u v

/-- `graph.setEdge(u, v, data)` on an undirected non-multigraph: replace the
data of an existing edge between the pair, otherwise append a new edge. -/
def setEdge (es : List Edge) (u v : String) (d : EdgeData) : List Edge :=
  if es.any (fun e => edgeMatches e u v) then
    es.map (fun e => if edgeMatches e u v then { e with data := d } else e)
  else es ++ [⟨u, v, d⟩]

/-- `Map.set`: replace in place when the key exists, else append. -/
def mapSet (l : List Article) (a : Article) : List Article :=
  if l.any (fun x => x.id = a.id) then
    l.map (fun x => if x.id = a.id then a else x)
  else l ++ [a]

/-- One iteration of the `updateRelationships` loop: skip the new article
itself, otherwise detect and install an edge when the detection fires. -/
def urStep (newArticle : Article) (es : List Edge) (existing : Article) : List Edge :=
  if existing.id = newArticle.id then es
  else
    let relationships := findRelationships newArticle existing
    if relationships ≠ [] then
      setEdge es newArticle.id existing.id ⟨relationships, calculateEdgeWeight relationships⟩
    else es

/-- `ArticleGraph.updateRelationships`: walk every stored article (the new
one included, skipped by the id test), detect relationships against the new
article and install an edge where the detection is non-empty. -/
def updateRelationships (g : GraphState) (newArticle : Article) : GraphState :=
  { g with edges := g.articles.foldl (urStep newArticle) g.edges }

/-- `ArticleGraph.addArticle`: throws only on a falsy id; otherwise stores
the node (overwriting any existing article with the same id) and updates
relationships.  There is no duplicate-id check in the source. -/
def addArticle (g : GraphState) (article : Article) : Except String GraphState :=
  if article.id = "" then .error "Article must have an id"
  else
    let g1 : GraphState := { articles := mapSet g.articles article, edges := g.edges }
    .ok (updateRelationships g1 article)

/-- `ArticleGraph.removeArticle` (and `ArticleStore.delete`): silently drop
the node and every incident edge; no error for an absent id. -/
def removeArticle (g : GraphState) (id : String) : GraphState :=
  { articles := g.articles.filter (fun a => ¬ a.id = id),
    edges := g.edges.filter (fun e => ¬ e.src = id ∧ ¬ e.dst = id) }

/-- `graph.neighbors(id)` flattened to a list (graphlib returns `undefined`
for a missing node and the caller substitutes `[]`). -/
def neighborIds (g : GraphState) (id : String) : List String :=
  g.edges.filterMap (fun e =>
    if e.src = id then some e.dst
    else if e.dst = id then some e.src
    else none)

/-- One entry of `ArticleGraph.getConnections`. -/
structure ConnectionEntry where
  id : String
  title : Option String
  relationships : List Relationship
  weight : Rat
deriving Repr, DecidableEq

/-- `ArticleGraph.getConnections`: neighbor list with edge data; `[]` when
the node is absent (the `if (!neighbors) return []` branch). -/
def getConnections (g : GraphState) (articleId : String) : List ConnectionEntry :=
  (neighborIds g articleId).map (fun neighborId =>
    let edgeData := edgeLookup g articleId neighborId
    { id := neighborId,
      title := (getArticleG g neighborId).map (·.title),
      relationships := (edgeData.map (·.relationships)).getD [],
      weight := (edgeData.map (·.weight)).getD 0 })

/-- A graph built by inserting the given articles in list order into an
empty store (the error branch is unreachable for non-empty ids). -/
def buildGraph (l : List Article) : GraphState :=
  l.foldl (fun g a =>
    match addArticle g a with
    | .ok g2 => g2
    | .error _ => g) emptyGraph

/-- Reachable states of the store: everything obtainable from the empty
graph by successful insertions and removals. -/
inductive Reachable : GraphState → Prop where
  | empty : Reachable emptyGraph
  | add (g : GraphState) (a : Article) (g2 : GraphState) :
      Reachable g → addArticle g a = .ok g2 → Reachable g2
  | remove (g : GraphState) (id : String) :
      Reachable g → Reachable (removeArticle g id)

/-! Distance engine (`src/graph/distance-calculator.js`). -/

/-- Per-edge traversal cost handed to Dijkstra:
`1 / (edgeData?.weight || 0.1)` — the JS `||` substitutes `0.1` exactly for
a falsy (zero) weight. -/
def dijkstraEdgeCost (w : Rat) : Rat :=
  1 / (if w = 0 then 1/10 else w)

/-- Dijkstra bookkeeping per node, mirroring graphlib's
`{ distance, predecessor }` with `none` for `Infinity` / undefined. -/
structure DEntry where
  dist : Option Rat
  pred : Option String
  visited : Bool
deriving Repr, DecidableEq

def lookupEntry (tbl : List (String × DEntry)) (k : String) : Option DEntry :=
  (tbl.find? (fun p => p.1 = k)).map (·.2)

/-- Choose the unvisited node of smallest finite tentative distance. -/
def pickMin (tbl : List (String × DEntry)) : Option (String × Rat) :=
  tbl.foldl (fun best p =>
    match p.2.dist, p.2.visited with
    | some d, false =>
        match best with
        | none => some (p.1, d)
        | some b => if d < b.2 then some (p.1, d) else some b
    | _, _ => best) none

/-- Effect of settling `u` (tentative distance `du`) on the entry of one
node `v`: mark `u` itself visited, relax `v` along an incident edge when the
offered distance improves. -/
def relaxStep (g : GraphState) (u : String) (du : Rat) (v : String)
    (e : DEntry) : DEntry :=
  if v = u then { e with visited := true }
  else
    match edgeLookup g u v with
    | some ed =>
        let nd := du + dijkstraEdgeCost ed.weight
        match e.dist with
        | some old => if nd < old then ⟨some nd, some u, e.visited⟩ else e
        | none => ⟨some nd, some u, e.visited⟩
    | none => e

/-- Settle node `u` (tentative distance `du`) and relax every edge incident
to it. -/
def relaxOne (g : GraphState) (u : String) (du : Rat)
    (tbl : List (String × DEntry)) : List (String × DEntry) :=
  tbl.map (fun p => (p.1, relaxStep g u du p.1 p.2))

def dijkstraLoop (g : GraphState) : Nat → List (String × DEntry) → List (String × DEntry)
  | 0, tbl => tbl
  | fuel + 1, tbl =>
      match pickMin tbl with
      | none => tbl
      | some (u, du) => dijkstraLoop g fuel (relaxOne g u du tbl)

/-- `Graph.alg.dijkstra(graph, source, weightFn)`: single-source shortest
distances with predecessor links; every node is settled at most once, so the
node count bounds the iterations. -/
def dijkstra (g : GraphState) (source : String) : List (String × DEntry) :=
  let init := g.articles.map (fun a =>
    (a.id, (⟨if a.id = source then some 0 else none, none, false⟩ : DEntry)))
  dijkstraLoop g init.length init

/-- The `while (currentId)` predecessor walk of `reconstructPath`, built
backwards from the target; the fuel is a bound on the chain length, never
reached when the predecessor links are acyclic. -/
def predChainAux (tbl : List (String × DEntry)) : Nat → Option String → List String
  | _, none => []
  | 0, some _ => []
  | fuel + 1, some cur =>
      cur :: predChainAux tbl fuel ((lookupEntry tbl cur).bind (·.pred))

/-- One element of a reconstructed path: `{id, title, metadata}` plus the
`relationships` / `edgeWeight` annotations added to non-terminal elements. -/
structure PathItem where
  id : String
  title : Option String
  metadata : Option Metadata
  relationships : Option (List Relationship)
  edgeWeight : Option Rat
deriving Repr, DecidableEq

def mkPlainItem (g : GraphState) (id : String) : PathItem :=
  { id := id,
    title := (getArticleG g id).map (·.title),
    metadata := (getArticleG g id).map (·.metadata),
    relationships := none,
    edgeWeight := none }

/-- The indexed map of `reconstructPath`: each element but the last carries
the data of the edge to the next element when that edge exists. -/
def annotate (g : GraphState) : List String → List PathItem
  | [] => []
  | [id] => [mkPlainItem g id]
  | id :: next :: rest =>
      (match edgeLookup g id next with
       | some edgeData =>
           { mkPlainItem g id with
             relationships := some edgeData.relationships,
             edgeWeight := some edgeData.weight }
       | none => mkPlainItem g id) :: annotate g (next :: rest)

/-- `reconstructPath`: walk predecessors back from the target, reverse, and
annotate. -/
def reconstructPath (g : GraphState) (toId : String)
    (tbl : List (String × DEntry)) : List PathItem :=
  annotate g (predChainAux tbl (tbl.length + 1) (some toId)).reverse

structure DistResult where
  distance : Option Rat
  path : List PathItem
deriving Repr, DecidableEq

/-- `calculateWeightedDistance`: run Dijkstra, return `Infinity` with an
empty path for an unreachable target, otherwise the distance and the
reconstructed path. -/
def calculateWeightedDistance (g : GraphState) (fromId toId : String) : DistResult :=
  let tbl := dijkstra g fromId
  match (lookupEntry tbl toId).bind (·.dist) with
  | none => { distance := none, path := [] }
  | some d => { distance := some d, path := reconstructPath g toId tbl }

/-- The BFS `while (queue.length > 0)` loop of `calculateUnweightedDistance`;
each queue element carries the id path from the source, and nodes are marked
visited when enqueued, so the node count bounds the total enqueues. -/
def bfsLoop (g : GraphState) (toId : String) :
    Nat → List (String × List String) → List String → Option (List String)
  | 0, _, _ => none
  | _, [], _ => none
  | fuel + 1, (currentId, path) :: rest, visited =>
      if currentId = toId then some path
      else
        let step := (neighborIds g currentId).foldl
          (fun (acc : List (String × List String) × List String) neighborId =>
            if acc.2.contains neighborId then acc
            else (acc.1 ++ [(neighborId, path ++ [neighborId])], acc.2 ++ [neighborId]))
          (rest, visited)
        bfsLoop g toId fuel step.1 step.2

/-- `calculateUnweightedDistance`: hop count and the plain article path
(no relationship annotations on unweighted path elements). -/
def calculateUnweightedDistance (g : GraphState) (fromId toId : String) : DistResult :=
  match bfsLoop g toId (g.articles.length + 1) [(fromId, [fromId])] [fromId] with
  | some path =>
      { distance := some ((path.length - 1 : Nat) : Rat),
        path := path.map (fun id => mkPlainItem g id) }
  | none => { distance := none, path := [] }

/-- `calculateDistance(articleGraph, fromId, toId, {weighted})`: node
existence guards, the self-distance shortcut, then the selected mode. -/
def calculateDistance (g : GraphState) (fromId toId : String)
    (weighted : Bool) : Except String DistResult :=
  if ¬ hasNode g fromId then
    .error ("Source article " ++ fromId ++ " not found")
  else if ¬ hasNode g toId then
    .error ("Target article " ++ toId ++ " not found")
  else if fromId = toId then
    .ok { distance := some 0, path := [mkPlainItem g fromId] }
  else if weighted then .ok (calculateWeightedDistance g fromId toId)
  else .ok (calculateUnweightedDistance g fromId toId)

/-- One entry of the `findArticlesWithinDistance` result groups. -/
structure WithinEntry where
  id : String
  title : String
  distance : Rat
  relationships : List Relationship
  weight : Rat
deriving Repr, DecidableEq

/-- `results[distance] = results[distance] || []; results[distance].push(x)`
on a JS object keyed by the numeric distance, as an association list. -/
def addToGroup (results : List (Rat × List WithinEntry)) (d : Rat)
    (x : WithinEntry) : List (Rat × List WithinEntry) :=
  if results.any (fun p => p.1 = d) then
    results.map (fun p => if p.1 = d then (p.1, p.2 ++ [x]) else p)
  else results ++ [(d, [x])]

/-- Lookup of one distance group (`relatedByDistance[distance] || []`). -/
def groupLookup (results : List (Rat × List WithinEntry)) (d : Rat) : List WithinEntry :=
  ((results.find? (fun p => p.1 = d)).map (·.2)).getD []

/-- One iteration of the `findArticlesWithinDistance` loop: skip the source
itself, compute the distance to one candidate article and group it when the
distance is finite and within the bound.  (The per-article
`calculateDistance` call cannot throw: both endpoints are present.) -/
def wdStep (g : GraphState) (sourceId : String) (maxDistance : Rat)
    (weighted : Bool) (results : List (Rat × List WithinEntry))
    (article : Article) : List (Rat × List WithinEntry) :=
  if article.id = sourceId then results
  else
    match calculateDistance g sourceId article.id weighted with
    | .error _ => results
    | .ok distanceResult =>
        match distanceResult.distance with
        | none => results
        | some d =>
            if d ≤ maxDistance then
              let edgeData := edgeLookup g sourceId article.id
              addToGroup results d
                { id := article.id, title := article.title, distance := d,
                  relationships := (edgeData.map (·.relationships)).getD [],
                  weight := (edgeData.map (·.weight)).getD 0 }
            else results

/-- `findArticlesWithinDistance`: per-article distance queries from the
source, keeping reachable articles within the bound, grouped by exact
distance; the attached relationships and weight come from the direct edge
between the source and the article only. -/
def findArticlesWithinDistance (g : GraphState) (sourceId : String)
    (maxDistance : Rat) (weighted : Bool) :
    Except String (List (Rat × List WithinEntry)) :=
  if ¬ hasNode g sourceId then
    .error ("Source article " ++ sourceId ++ " not found")
  else
    .ok (g.articles.foldl (wdStep g sourceId maxDistance weighted) [])

/-! Service facade (`src/services/graph-service.js`).  The facade keeps the
`ArticleStore` and the `ArticleGraph` in lockstep (every mutation goes to
both), so a single `GraphState` models the pair and `store.has` coincides
with `hasNode`. -/

/-- `GraphService.getRelatedArticles`: guard, one `findArticlesWithinDistance`
call, then copy only the integer distance keys `1..maxDistance` into the
presentation buckets. -/
def getRelatedArticles (g : GraphState) (sourceId : String)
    (maxDistance : Nat) (weighted : Bool) :
    Except String (List (Nat × List WithinEntry)) :=
  if ¬ hasNode g sourceId then
    .error ("Article " ++ sourceId ++ " not found")
  else
    match findArticlesWithinDistance g sourceId (maxDistance : Rat) weighted with
    | .error e => .error e
    | .ok relatedByDistance =>
        .ok ((List.range' 1 maxDistance).map (fun d =>
          (d, groupLookup relatedByDistance (d : Rat))))

/-- Path element returned by `GraphService.calculateDistance`: the facade
keeps `{id, title, relationships}` and drops the edge weight. -/
structure FacadePathItem where
  id : String
  title : Option String
  relationships : Option (List Relationship)
deriving Repr, DecidableEq

/-- `GraphService.calculateDistance`: store guards, engine call, field
projection of the path elements. -/
def serviceCalculateDistance (g : GraphState) (fromId toId : String)
    (weighted : Bool) : Except String (Option Rat × List FacadePathItem) :=
  if ¬ hasNode g fromId then
    .error ("Source article " ++ fromId ++ " not found")
  else if ¬ hasNode g toId then
    .error ("Target article " ++ toId ++ " not found")
  else
    match calculateDistance g fromId toId weighted with
    | .error e => .error e
    | .ok r => .ok (r.distance, r.path.map (fun it => ⟨it.id, it.title, it.relationships⟩))

/-- `GraphService.getArticle`: `null` for an absent id, otherwise the
article with its direct connections. -/
def serviceGetArticle (g : GraphState) (articleId : String) :
    Option (Article × List ConnectionEntry) :=
  match getArticleG g articleId with
  | none => none
  | some a => some (a, getConnections g articleId)

/-- `GraphService.getRelevanceScore`: weighted distance wrapped in
`try/catch`; `0` for unreachable targets and for any thrown lookup error. -/
def getRelevanceScore (g : GraphState) (sourceId targetId : String) : Rat :=
  match calculateDistance g sourceId targetId true with
  | .error _ => 0
  | .ok r =>
      match r.distance with
      | none => 0
      | some d => 1 / (1 + d)

/-- Distance value of a query, `none` for both `Infinity` and an error
(used only to state claims, never by the embedded code). -/
def distanceValue (g : GraphState) (u v : String) (weighted : Bool) : Option Rat :=
  match calculateDistance g u v weighted with
  | .ok r => r.distance
  | .error _ => none

/-! Statement-side helper predicates and values used to phrase the verified
properties. -/

/-- Whether the adjacency table directly marks `c2` as a neighbor of `c1`
(an exact-string table lookup, the way the source consults it). -/
def adjacentInTable (c1 c2 : String) : Bool :=
  match adjacencyLookup c1 with
  | some l => l.contains c2
  | none => false

/-- The observable content of an edge named by claims about the edge set:
which relationship types connect the pair and with which aggregated
weight. -/
def edgeProfile (g : GraphState) (u v : String) : Option (List RelType × Rat) :=
  (edgeLookup g u v).map (fun ed => (ed.relationships.map (·.rtype), ed.weight))

/-- Edge content the detector produces for an ordered pair (first argument
playing the newly-inserted article). -/
def relProfile (x y : Article) : Option (List RelType × Rat) :=
  let rels := findRelationships x y
  if rels = [] then none else some (rels.map (·.rtype), calculateEdgeWeight rels)

/-- Membership condition of the within-distance result groups: `a` is a
non-source article whose computed distance is exactly `d`, within the
bound. -/
def withinPred (g : GraphState) (sourceId : String) (maxDistance : Rat)
    (weighted : Bool) (d : Rat) (a : Article) : Bool :=
  ¬ a.id = sourceId ∧ distanceValue g sourceId a.id weighted = some d ∧ d ≤ maxDistance

/-- The entry `findArticlesWithinDistance` builds for article `a` found at
distance `d` from `sourceId`. -/
def mkWithinEntry (g : GraphState) (sourceId : String) (a : Article) (d : Rat) : WithinEntry :=
  let edgeData := edgeLookup g sourceId a.id
  { id := a.id, title := a.title, distance := d,
    relationships := (edgeData.map (·.relationships)).getD [],
    weight := (edgeData.map (·.weight)).getD 0 }

/-- A path whose non-terminal elements are correctly annotated: each one
carries the relationship list and weight of the edge to the next element. -/
def annotatedPathOk (g : GraphState) : List PathItem → Prop
  | x :: y :: rest =>
      (∃ ed, edgeLookup g x.id y.id = some ed ∧
        x.relationships = some ed.relationships ∧ x.edgeWeight = some ed.weight) ∧
      annotatedPathOk g (y :: rest)
  | _ => True

/-- Structural well-formedness that every reachable store state enjoys. -/
structure GraphWF (g : GraphState) : Prop where
  ids_nodup : (g.articles.map (·.id)).Nodup
  ids_ne : ∀ a ∈ g.articles, ¬ a.id = ""
  edge_weight : ∀ e ∈ g.edges, 4/10 ≤ e.data.weight
  edge_src : ∀ e ∈ g.edges, hasNode g e.src = true
  edge_dst : ∀ e ∈ g.edges, hasNode g e.dst = true
  edge_ne : ∀ e ∈ g.edges, ¬ e.src = e.dst

/-- Invariant of the Dijkstra table: the source is pinned at distance zero,
finite tentative distances are non-negative, and every predecessor link
crosses a real edge towards a strictly smaller finite distance. -/
structure DInv (g : GraphState) (source : String) (tbl : List (String × DEntry)) : Prop where
  keys_nodup : (tbl.map (·.1)).Nodup
  src_mem : ∃ e, lookupEntry tbl source = some e ∧ e.dist = some 0 ∧ e.pred = none
  nonneg : ∀ p ∈ tbl, ∀ d, p.2.dist = some d → 0 ≤ d
  pred_ok : ∀ p ∈ tbl, ∀ q, p.2.pred = some q →
    ∃ ed, edgeLookup g q p.1 = some ed ∧
      ∃ d dq eq2, p.2.dist = some d ∧ lookupEntry tbl q = some eq2 ∧
        eq2.dist = some dq ∧ dq + dijkstraEdgeCost ed.weight ≤ d
  fin_pred : ∀ p ∈ tbl, ¬ p.1 = source → p.2.dist ≠ none → p.2.pred ≠ none

/-- Number of table entries strictly below a finite distance, the
termination measure of the predecessor walk. -/
def countBelow (tbl : List (String × DEntry)) (d : Rat) : Nat :=
  (tbl.filter (fun p =>
    match p.2.dist with
    | some d2 => decide (d2 < d)
    | none => false)).length

/-! Concrete articles realizing the test scenarios cited by the spec. -/

/-- An article whose metadata mentions the given clubs, a primary county and
nothing else. -/
def simpleArticle (id county : String) (clubs : List String) : Article :=
  { id := id, title := id,
    metadata := { clubs := clubs.map (fun n => { name := n, county := county, league := none }),
                  «matches» := [], primaryCounty := county, leagues := [] } }

def artA : Article := simpleArticle "a" "Dublin" ["alpha"]

def artB : Article := simpleArticle "b" "Wexford" ["alpha"]

def artC : Article := simpleArticle "c" "Carlow" ["gamma"]

/-- The chain scenario of the spec: A–B share a club (edge weight 1.0), B–C
are adjacent counties (edge weight 0.4), and A–C share nothing. -/
def chainGraph : GraphState := buildGraph [artA, artB, artC]

/-- The A–B edge as stored in the chain graph (installed when B arrived,
hence oriented b→a). -/
def chainEdgeAB : Edge := ⟨"b", "a", ⟨[⟨.SAME_CLUB, 1, ["alpha"]⟩], 1⟩⟩

def artTyrone : Article := simpleArticle "t" "Tyrone" []

def artDerry : Article := simpleArticle "d" "Derry" []

/-- An article with one match involving the given two teams. -/
def matchArticle (id : String) (club home away : String) : Article :=
  { id := id, title := id,
    metadata := { clubs := [{ name := club, county := "Dublin", league := none }],
                  «matches» := [{ homeTeam := home, awayTeam := away, result := none }],
                  primaryCounty := "Dublin", leagues := [] } }

def artM1 : Article := matchArticle "m1" "mclub1" "t1" "t2"

def artM2 : Article := matchArticle "m2" "mclub2" "t1" "t3"

/-- Two articles joined by a single MATCH_PLAYED edge of weight 0.9, whose
weighted distance is therefore the fractional 1/0.9. -/
def matchPairGraph : GraphState := buildGraph [artM1, artM2]

def artDupA : Article := simpleArticle "x" "Dublin" ["X", "X"]

def artDupB : Article := simpleArticle "y" "Kerry" ["x"]

/-- A record reusing the id of `artA` with different metadata, for probing
duplicate insertion. -/
def artAKerry : Article := simpleArticle "a" "Kerry" ["zeta"]

/-- The state produced by re-inserting id `"a"` into the chain graph. -/
def dupInsertGraph : GraphState := ((addArticle chainGraph artAKerry).toOption).getD emptyGraph

/-- Result of the unweighted chain query A→C. -/
def chainUnweightedResult : DistResult :=
  ((calculateDistance chainGraph "a" "c" false).toOption).getD ⟨none, []⟩

/-- Result of the weighted chain query A→C. -/
def chainWeightedResult : DistResult :=
  ((calculateDistance chainGraph "a" "c" true).toOption).getD ⟨none, []⟩

def artGaaA : Article := simpleArticle "g1" "Dublin" ["Dublin GAA"]

def artGaaB : Article := simpleArticle "g2" "Kerry" [" dublin gaa "]

def artDub : Article := simpleArticle "du" "Dublin" []

def artMeath : Article := simpleArticle "me" "Meath" []

/-! Theorems. -/

/-! Characterization of the proximity detector. -/

/-- Every adjacency-table entry has a non-empty key and lists only
non-empty neighbors that differ from the key even case-insensitively. -/
theorem adjacency_entries_sound :
    COUNTY_ADJACENCY.all (fun p =>
      (¬ p.1 = "") ∧ p.2.all (fun v => (¬ v = "") ∧ toLowerStr v ≠ toLowerStr p.1)) = true := by
  with_unfolding_all rfl

/-- A positive adjacency lookup forces both county strings non-empty and
case-insensitively different. -/
theorem adjacentInTable_facts (c1 c2 : String) (h : adjacentInTable c1 c2 = true) :
    ¬ c1 = "" ∧ ¬ c2 = "" ∧ toLowerStr c1 ≠ toLowerStr c2 := by
  unfold adjacentInTable at h
  rcases hl : adjacencyLookup c1 with _ | l
  · rw [hl] at h; exact absurd h (by simp)
  · rw [hl] at h
    have hc2 : c2 ∈ l := List.elem_iff.mp h
    obtain ⟨p, hp, hpc⟩ : ∃ p ∈ COUNTY_ADJACENCY, p.1 = c1 ∧ p.2 = l := by
      unfold adjacencyLookup at hl
      rcases hf : COUNTY_ADJACENCY.find? (fun p => p.1 = c1) with _ | p
      · rw [hf] at hl; exact absurd hl (by simp)
      · rw [hf] at hl
        refine ⟨p, List.mem_of_find?_eq_some hf, ?_, ?_⟩
        · have := List.find?_some hf
          exact of_decide_eq_true this
        · simpa using hl
    have hall := List.all_eq_true.mp adjacency_entries_sound p hp
    simp only [decide_eq_true_eq, List.all_eq_true] at hall
    obtain ⟨hk, hvs⟩ := hall
    have hv := hvs c2 (by rw [hpc.2]; exact hc2)
    simp only [decide_eq_true_eq] at hv
    rw [hpc.1] at hk hv
    exact ⟨hk, hv.1, fun he => hv.2 he.symm⟩

/-- The proximity detector reduces to a single adjacency-table test: it
fires exactly on a positive lookup, with weight 0.4 and the two county
names as evidence. -/
theorem prox_char (a b : Article) :
    findProximityRelationship a b =
      (if adjacentInTable a.metadata.primaryCounty b.metadata.primaryCounty = true
       then some ⟨.PROXIMITY, 4/10, [a.metadata.primaryCounty, b.metadata.primaryCounty]⟩
       else none) := by
  unfold findProximityRelationship
  by_cases h : adjacentInTable a.metadata.primaryCounty b.metadata.primaryCounty = true
  · obtain ⟨h1, h2, h3⟩ := adjacentInTable_facts _ _ h
    have hne : a.metadata.primaryCounty ≠ b.metadata.primaryCounty :=
      fun he => h3 (by rw [he])
    rw [if_pos h, if_neg (by simp [h1, h2])]
    unfold areCountiesClose
    rw [if_neg hne]
    unfold adjacentInTable at h
    rcases hl : adjacencyLookup a.metadata.primaryCounty with _ | l
    · rw [hl] at h; exact absurd h (by simp)
    · rw [hl] at h
      have h2c : l.contains b.metadata.primaryCounty = true := h
      simp [h2c, List.elem_iff.mp h2c, hne]
  · rw [if_neg h]
    by_cases hg : a.metadata.primaryCounty = "" ∨ b.metadata.primaryCounty = ""
    · rw [if_pos hg]
    · rw [if_neg hg]
      unfold areCountiesClose
      by_cases he : a.metadata.primaryCounty = b.metadata.primaryCounty
      · rw [if_pos he]
        simp [he]
      · rw [if_neg he]
        unfold adjacentInTable at h
        rcases hl : adjacencyLookup a.metadata.primaryCounty with _ | l
        · simp
        · rw [hl] at h
          have hc : l.contains b.metadata.primaryCounty = false := by
            cases hcc : l.contains b.metadata.primaryCounty
            · rfl
            · exact absurd hcc h
          have hmem : ¬ b.metadata.primaryCounty ∈ l := fun hm => by
            have hct : l.contains b.metadata.primaryCounty = true := List.elem_iff.mpr hm
            rw [hct] at hc
            simp at hc
          simp [hl, hc, hmem]

/-- C6: PROXIMITY fires iff the two primary counties are case-insensitively
different and the adjacency table marks them as neighbors; it then has
weight 0.4; identical counties never fire (the same-county weight-0.8
branch of `areCountiesClose` is discarded by the inequality guard). -/
theorem proximity_iff_adjacent (a b : Article) :
    ((findProximityRelationship a b).isSome = true ↔
      (adjacentInTable a.metadata.primaryCounty b.metadata.primaryCounty = true ∧
       toLowerStr a.metadata.primaryCounty ≠ toLowerStr b.metadata.primaryCounty)) ∧
    (∀ r, findProximityRelationship a b = some r →
      r.rtype = .PROXIMITY ∧ r.weight = 4/10 ∧
      r.sharedElements = [a.metadata.primaryCounty, b.metadata.primaryCounty]) ∧
    (a.metadata.primaryCounty = b.metadata.primaryCounty →
      findProximityRelationship a b = none) := by
  rw [prox_char]
  by_cases h : adjacentInTable a.metadata.primaryCounty b.metadata.primaryCounty = true
  · obtain ⟨h1, h2, h3⟩ := adjacentInTable_facts _ _ h
    rw [if_pos h]
    refine ⟨by simp [h, h3], ?_, ?_⟩
    · intro r hr
      cases hr
      exact ⟨rfl, rfl, rfl⟩
    · intro he
      exact absurd (by rw [he]) h3
  · rw [if_neg h]
    refine ⟨by simp [h], by simp, by simp⟩

/-- SAME_CLUB fires exactly when some pair of clubs shares a normalized
name. -/
theorem club_isSome_iff (a b : Article) :
    (findSameClubRelationship a b).isSome = true ↔
      ∃ c1 ∈ a.metadata.clubs, ∃ c2 ∈ b.metadata.clubs,
        normName c1.name = normName c2.name := by
  have hex : ((a.metadata.clubs.map (fun c => normName c.name)).filter
      (fun n => (b.metadata.clubs.map (fun c2 => normName c2.name)).contains n) ≠ []) ↔
      ∃ c1 ∈ a.metadata.clubs, ∃ c2 ∈ b.metadata.clubs,
        normName c1.name = normName c2.name := by
    rw [ne_eq, List.filter_eq_nil_iff]
    constructor
    · intro hne
      by_contra hnex
      apply hne
      intro n hn hcont
      obtain ⟨c1, hc1, hc1n⟩ := List.mem_map.mp hn
      obtain ⟨c2, hc2, hc2n⟩ := List.mem_map.mp (List.elem_iff.mp hcont)
      exact hnex ⟨c1, hc1, c2, hc2, by rw [hc1n, hc2n]⟩
    · rintro ⟨c1, hc1, c2, hc2, heq⟩ hall
      refine hall (normName c1.name) (List.mem_map.mpr ⟨c1, hc1, rfl⟩) ?_
      exact List.elem_iff.mpr (List.mem_map.mpr ⟨c2, hc2, heq.symm⟩)
  unfold findSameClubRelationship
  by_cases hs : (a.metadata.clubs.map (fun c => normName c.name)).filter
      (fun n => (b.metadata.clubs.map (fun c2 => normName c2.name)).contains n) = []
  · rw [if_neg (by simpa using hs)]
    simp only [Option.isSome_none, Bool.false_eq_true, false_iff]
    exact fun hcon => (hex.mpr hcon) hs
  · rw [if_pos (by simpa using hs)]
    simp only [Option.isSome_some, true_iff]
    exact hex.mp hs

/-- C9 (amended): SAME_CLUB fires with weight 1.0 exactly when some club of
the first article and some club of the second have equal trimmed,
case-folded names; its evidence lists, for each club of the first article
whose normalized name also occurs among the second article's normalized
club names — in the order and with the multiplicity of `a.clubs` — the name
of the first club of `a` with that normalized name.  Duplicates are kept,
not removed. -/
theorem same_club_characterization (a b : Article) :
    ((findSameClubRelationship a b).isSome = true ↔
      ∃ c1 ∈ a.metadata.clubs, ∃ c2 ∈ b.metadata.clubs,
        normName c1.name = normName c2.name) ∧
    (∀ r, findSameClubRelationship a b = some r →
      r.rtype = .SAME_CLUB ∧ r.weight = 1 ∧
      r.sharedElements =
        (a.metadata.clubs.filter (fun c =>
          (b.metadata.clubs.map (fun c2 => normName c2.name)).contains (normName c.name))).map
          (fun c =>
            match a.metadata.clubs.find? (fun c0 => normName c0.name = normName c.name) with
            | some c0 => c0.name
            | none => normName c.name)) := by
  constructor
  · exact club_isSome_iff a b
  · intro r hr
    unfold findSameClubRelationship at hr
    by_cases hs : (a.metadata.clubs.map (fun c => normName c.name)).filter
        (fun n => (b.metadata.clubs.map (fun c2 => normName c2.name)).contains n) = []
    · rw [if_neg (by simpa using hs)] at hr
      cases hr
    · rw [if_pos (by simpa using hs)] at hr
      cases hr
      refine ⟨rfl, rfl, ?_⟩
      rw [List.filter_map, List.map_map]
      rfl

/-- Witness for C9 at the spec's case/whitespace-insensitivity example and
at the duplicated-club pair. -/
theorem same_club_characterization_witness :
    (findSameClubRelationship artGaaA artGaaB).isSome = true ∧
    ((⟨.SAME_CLUB, 1, ["X", "X"]⟩ : Relationship).rtype = .SAME_CLUB ∧
     (⟨.SAME_CLUB, 1, ["X", "X"]⟩ : Relationship).weight = 1 ∧
     (⟨.SAME_CLUB, 1, ["X", "X"]⟩ : Relationship).sharedElements =
       (artDupA.metadata.clubs.filter (fun c =>
         (artDupB.metadata.clubs.map (fun c2 => normName c2.name)).contains (normName c.name))).map
         (fun c =>
           match artDupA.metadata.clubs.find? (fun c0 => normName c0.name = normName c.name) with
           | some c0 => c0.name
           | none => normName c.name)) := by
  constructor
  · apply (same_club_characterization artGaaA artGaaB).1.mpr
    refine ⟨⟨"Dublin GAA", "Dublin", none⟩, ?_, ⟨" dublin gaa ", "Kerry", none⟩, ?_, ?_⟩
    · have h : artGaaA.metadata.clubs = [⟨"Dublin GAA", "Dublin", none⟩] := by
        with_unfolding_all rfl
      rw [h]
      exact List.Mem.head _
    · have h : artGaaB.metadata.clubs = [⟨" dublin gaa ", "Kerry", none⟩] := by
        with_unfolding_all rfl
      rw [h]
      exact List.Mem.head _
    · with_unfolding_all rfl
  · exact (same_club_characterization artDupA artDupB).2 ⟨.SAME_CLUB, 1, ["X", "X"]⟩
      (by with_unfolding_all rfl)

/-! Duplicate insertion: `Map.set` overwrite lemmas. -/

/-- Replacing an existing key with `Map.set` leaves the key sequence
unchanged. -/
theorem mapSet_map_id_of_mem (l : List Article) (a : Article)
    (h : l.any (fun x => x.id = a.id) = true) :
    (mapSet l a).map (·.id) = l.map (·.id) := by
  unfold mapSet
  rw [if_pos h, List.map_map]
  refine List.map_congr_left (fun x _ => ?_)
  by_cases hx : x.id = a.id
  · simp [hx]
  · simp [hx]

/-- After `Map.set` of an existing key, lookup of that key yields the new
record. -/
theorem find_mapSet (l : List Article) (a : Article)
    (h : l.any (fun x => x.id = a.id) = true) :
    (mapSet l a).find? (fun x => x.id = a.id) = some a := by
  unfold mapSet
  rw [if_pos h]
  induction l with
  | nil => simp at h
  | cons x xs ih =>
      by_cases hx : x.id = a.id
      · simp [List.find?, hx]
      · have h2 : xs.any (fun x => x.id = a.id) = true := by
          rcases List.any_eq_true.mp h with ⟨y, hy, hyp⟩
          rcases List.mem_cons.mp hy with hyx | hyxs
          · exact absurd (of_decide_eq_true hyp) (hyx ▸ hx)
          · exact List.any_eq_true.mpr ⟨y, hyxs, hyp⟩
        simp only [List.map_cons, List.find?, if_neg hx, decide_eq_false hx]
        exact ih h2

/-- C4 (amended): inserting an article whose id already exists does not
fail — it succeeds, keeps the node id sequence unchanged, and replaces the
stored record for that id with the new article (relationship detection then
runs against the other articles; no `DuplicateIdError` exists in the
code). -/
theorem duplicate_insert_overwrites (g : GraphState) (a : Article)
    (hid : ¬ a.id = "") (hdup : hasNode g a.id = true) :
    ∃ g2, addArticle g a = .ok g2 ∧
      g2.articles.map (·.id) = g.articles.map (·.id) ∧
      getArticleG g2 a.id = some a := by
  refine ⟨updateRelationships ⟨mapSet g.articles a, g.edges⟩ a, ?_, ?_, ?_⟩
  · unfold addArticle
    rw [if_neg hid]
  · exact mapSet_map_id_of_mem g.articles a hdup
  · exact find_mapSet g.articles a hdup

/-- Witness for the amended C4 at the chain graph and the reused id "a". -/
theorem duplicate_insert_overwrites_witness :
    ∃ g2, addArticle chainGraph artAKerry = .ok g2 ∧
      g2.articles.map (·.id) = chainGraph.articles.map (·.id) ∧
      getArticleG g2 artAKerry.id = some artAKerry :=
  duplicate_insert_overwrites chainGraph artAKerry (by with_unfolding_all decide)
    (by with_unfolding_all rfl)

/-! Structural invariants of reachable graph states. -/

theorem le_foldl_max (l : List Rat) (b : Rat) : b ≤ l.foldl max b := by
  induction l generalizing b with
  | nil => exact le_refl b
  | cons x xs ih => exact le_trans (le_max_left b x) (ih (max b x))

/-- Every fired SAME_CLUB relationship has type SAME_CLUB and weight 1. -/
theorem club_some_shape (a b : Article) (r : Relationship)
    (h : findSameClubRelationship a b = some r) :
    r.rtype = .SAME_CLUB ∧ r.weight = 1 := by
  unfold findSameClubRelationship at h
  dsimp only at h
  split at h
  · cases h; exact ⟨rfl, rfl⟩
  · cases h

/-- Every fired PROXIMITY relationship has type PROXIMITY and weight 0.4. -/
theorem prox_some_shape (a b : Article) (r : Relationship)
    (h : findProximityRelationship a b = some r) :
    r.rtype = .PROXIMITY ∧ r.weight = 4/10 := by
  rw [prox_char] at h
  split at h
  · cases h; exact ⟨rfl, rfl⟩
  · cases h

/-- Every fired MATCH_PLAYED relationship has type MATCH_PLAYED and weight
0.9. -/
theorem matchp_some_shape (a b : Article) (r : Relationship)
    (h : findMatchPlayedRelationship a b = some r) :
    r.rtype = .MATCH_PLAYED ∧ r.weight = 9/10 := by
  unfold findMatchPlayedRelationship at h
  dsimp only at h
  split at h
  · cases h; exact ⟨rfl, rfl⟩
  · cases h

/-- Every fired SAME_LEAGUE relationship has type SAME_LEAGUE and weight
0.5. -/
theorem league_some_shape (a b : Article) (r : Relationship)
    (h : findSameLeagueRelationship a b = some r) :
    r.rtype = .SAME_LEAGUE ∧ r.weight = 1/2 := by
  unfold findSameLeagueRelationship at h
  dsimp only at h
  split at h
  · cases h; exact ⟨rfl, rfl⟩
  · cases h

/-- Every detected relationship carries one of the four fixed weights. -/
theorem rel_weight_cases (a b : Article) (r : Relationship)
    (h : r ∈ findRelationships a b) :
    r.weight = 1 ∨ r.weight = 4/10 ∨ r.weight = 9/10 ∨ r.weight = 1/2 := by
  have h4 : findSameClubRelationship a b = some r ∨
      findProximityRelationship a b = some r ∨
      findMatchPlayedRelationship a b = some r ∨
      findSameLeagueRelationship a b = some r := by
    simpa [findRelationships] using h
  rcases h4 with h1 | h1 | h1 | h1
  · exact Or.inl (club_some_shape a b r h1).2
  · exact Or.inr (Or.inl (prox_some_shape a b r h1).2)
  · exact Or.inr (Or.inr (Or.inl (matchp_some_shape a b r h1).2))
  · exact Or.inr (Or.inr (Or.inr (league_some_shape a b r h1).2))

/-- Every detected relationship weighs at least 0.4. -/
theorem rel_weight_ge (a b : Article) (r : Relationship)
    (h : r ∈ findRelationships a b) : 4/10 ≤ r.weight := by
  rcases rel_weight_cases a b r h with h1 | h1 | h1 | h1 <;> rw [h1] <;> norm_num

/-- The aggregated weight of a non-empty detection is at least 0.4. -/
theorem cew_ge (rels : List Relationship) (hne : rels ≠ [])
    (hw : ∀ r ∈ rels, 4/10 ≤ r.weight) : 4/10 ≤ calculateEdgeWeight rels := by
  match rels with
  | [] => exact absurd rfl hne
  | r :: rs =>
      exact le_trans (hw r (List.mem_cons_self r rs)) (le_foldl_max _ _)

/-- Case analysis of membership in a `setEdge` result. -/
theorem mem_setEdge (es : List Edge) (u v : String) (d : EdgeData) (e : Edge)
    (h : e ∈ setEdge es u v d) :
    e ∈ es ∨ (e.data = d ∧
      ((∃ e0 ∈ es, e.src = e0.src ∧ e.dst = e0.dst) ∨ (e.src = u ∧ e.dst = v))) := by
  unfold setEdge at h
  split at h
  · rcases List.mem_map.mp h with ⟨e0, he0, hfe⟩
    by_cases hm : edgeMatches e0 u v = true
    · rw [if_pos hm] at hfe
      cases hfe
      exact Or.inr ⟨rfl, Or.inl ⟨e0, he0, rfl, rfl⟩⟩
    · rw [if_neg hm] at hfe
      cases hfe
      exact Or.inl he0
  · rcases List.mem_append.mp h with h1 | h1
    · exact Or.inl h1
    · rcases List.mem_singleton.mp h1 with rfl
      exact Or.inr ⟨rfl, Or.inr ⟨rfl, rfl⟩⟩

/-- Fold invariant preservation. -/
theorem foldl_inv {α β : Type} (inv : β → Prop) (f : β → α → β) (l : List α) (b : β)
    (hb : inv b) (hf : ∀ b2 x, inv b2 → x ∈ l → inv (f b2 x)) : inv (l.foldl f b) := by
  induction l generalizing b with
  | nil => exact hb
  | cons x xs ih =>
      exact ih (f b x) (hf b x hb (List.mem_cons_self x xs))
        (fun b2 y hy hmem => hf b2 y hy (List.mem_cons_of_mem x hmem))

/-- `hasNode` as membership of the id sequence. -/
theorem hasNode_iff (g : GraphState) (x : String) :
    hasNode g x = true ↔ x ∈ g.articles.map (·.id) := by
  unfold hasNode
  rw [List.any_eq_true]
  constructor
  · rintro ⟨a, ha, hpa⟩
    exact List.mem_map.mpr ⟨a, ha, of_decide_eq_true hpa⟩
  · intro hm
    rcases List.mem_map.mp hm with ⟨a, ha, haid⟩
    exact ⟨a, ha, decide_eq_true haid⟩

/-- Key sequence of a `Map.set`. -/
theorem mapSet_ids (l : List Article) (a : Article) :
    (mapSet l a).map (·.id) =
      if l.any (fun x => x.id = a.id) then l.map (·.id) else l.map (·.id) ++ [a.id] := by
  by_cases h : l.any (fun x => x.id = a.id) = true
  · rw [if_pos h]
    exact mapSet_map_id_of_mem l a h
  · rw [if_neg h]
    unfold mapSet
    rw [if_neg h, List.map_append]
    rfl

/-- Elements of a `Map.set` result come from the old map or are the new
record. -/
theorem mem_mapSet_cases (l : List Article) (a x : Article) (h : x ∈ mapSet l a) :
    x = a ∨ x ∈ l := by
  unfold mapSet at h
  split at h
  · rcases List.mem_map.mp h with ⟨y, hy, hfy⟩
    by_cases hyy : y.id = a.id
    · rw [if_pos hyy] at hfy; exact Or.inl hfy.symm
    · rw [if_neg hyy] at hfy; exact Or.inr (hfy ▸ hy)
  · rcases List.mem_append.mp h with h1 | h1
    · exact Or.inr h1
    · exact Or.inl (List.mem_singleton.mp h1)

/-- The new id is always present after `Map.set`. -/
theorem mapSet_has_new (l : List Article) (a : Article) :
    a.id ∈ (mapSet l a).map (·.id) := by
  rw [mapSet_ids]
  split
  · next h =>
      rcases List.any_eq_true.mp h with ⟨y, hy, hyp⟩
      exact List.mem_map.mpr ⟨y, hy, of_decide_eq_true hyp⟩
  · exact List.mem_append.mpr (Or.inr (List.mem_singleton.mpr rfl))

/-- Old ids survive a `Map.set`. -/
theorem mapSet_keeps_ids (l : List Article) (a : Article) (x : String)
    (h : x ∈ l.map (·.id)) : x ∈ (mapSet l a).map (·.id) := by
  rw [mapSet_ids]
  split
  · exact h
  · exact List.mem_append.mpr (Or.inl h)

/-- Every reachable state is well-formed: ids are distinct and non-empty,
every edge weighs at least 0.4 (the minimum relationship weight) and joins
two distinct existing nodes. -/
theorem reachable_wf (g : GraphState) (hg : Reachable g) : GraphWF g := by
  induction hg with
  | empty =>
      exact ⟨List.nodup_nil, by simp [emptyGraph], by simp [emptyGraph],
        by simp [emptyGraph], by simp [emptyGraph], by simp [emptyGraph]⟩
  | add g a g2 _ hadd ih =>
      unfold addArticle at hadd
      split at hadd
      · cases hadd
      next hid =>
      cases hadd
      set g1 : GraphState := { articles := mapSet g.articles a, edges := g.edges } with hg1
      have harts : (updateRelationships g1 a).articles = mapSet g.articles a := rfl
      have hnode2 : ∀ x, x ∈ (mapSet g.articles a).map (·.id) →
          hasNode (updateRelationships g1 a) x = true := by
        intro x hx
        rw [hasNode_iff, harts]
        exact hx
      refine ⟨?_, ?_, ?_, ?_, ?_, ?_⟩
      · rw [harts, mapSet_ids]
        split
        · exact ih.ids_nodup
        next h =>
          rw [List.nodup_append]
          refine ⟨ih.ids_nodup, List.nodup_singleton _, ?_⟩
          intro x hx hx1
          rcases List.mem_singleton.mp hx1 with rfl
          rcases List.mem_map.mp hx with ⟨y, hy, hyid⟩
          exact h (List.any_eq_true.mpr ⟨y, hy, decide_eq_true hyid⟩)
      · rw [harts]
        intro x hx
        rcases mem_mapSet_cases _ _ _ hx with rfl | hxg
        · exact hid
        · exact ih.ids_ne x hxg
      all_goals {
        have hinv : ∀ e ∈ (updateRelationships g1 a).edges,
            4/10 ≤ e.data.weight ∧
            e.src ∈ (mapSet g.articles a).map (·.id) ∧
            e.dst ∈ (mapSet g.articles a).map (·.id) ∧
            ¬ e.src = e.dst := by
          have : ∀ e ∈ g1.articles.foldl (urStep a) g1.edges,
              4/10 ≤ e.data.weight ∧
              e.src ∈ (mapSet g.articles a).map (·.id) ∧
              e.dst ∈ (mapSet g.articles a).map (·.id) ∧
              ¬ e.src = e.dst := by
            refine foldl_inv (fun es => ∀ e ∈ es,
              4/10 ≤ e.data.weight ∧
              e.src ∈ (mapSet g.articles a).map (·.id) ∧
              e.dst ∈ (mapSet g.articles a).map (·.id) ∧
              ¬ e.src = e.dst) (urStep a) g1.articles g1.edges ?_ ?_
            · intro e he
              exact ⟨ih.edge_weight e he,
                mapSet_keeps_ids _ _ _ ((hasNode_iff g e.src).mp (ih.edge_src e he)),
                mapSet_keeps_ids _ _ _ ((hasNode_iff g e.dst).mp (ih.edge_dst e he)),
                ih.edge_ne e he⟩
            · intro es x hes hxmem e he
              unfold urStep at he
              split at he
              · exact hes e he
              next hxa =>
                dsimp only at he
                split at he
                next hrels =>
                  rcases mem_setEdge _ _ _ _ _ he with hold | ⟨hdata, hsd⟩
                  · exact hes e hold
                  · have hwnew : 4/10 ≤ e.data.weight := by
                      rw [hdata]
                      exact cew_ge _ hrels (fun r hr => rel_weight_ge a x r hr)
                    rcases hsd with ⟨e0, he0, hs, hd⟩ | ⟨hs, hd⟩
                    · have h0 := hes e0 he0
                      exact ⟨hwnew, hs ▸ h0.2.1, hd ▸ h0.2.2.1,
                        by rw [hs, hd]; exact h0.2.2.2⟩
                    · refine ⟨hwnew, hs ▸ mapSet_has_new g.articles a, ?_, ?_⟩
                      · rw [hd]
                        have hxcases := mem_mapSet_cases g.articles a x hxmem
                        rcases hxcases with hxa2 | hxg
                        · rw [hxa2]
                          exact mapSet_has_new g.articles a
                        · exact mapSet_keeps_ids _ _ _ (List.mem_map.mpr ⟨x, hxg, rfl⟩)
                      · rw [hs, hd]
                        exact fun hcon => hxa hcon.symm
                · exact hes e he
          exact this
        first
        | exact fun e he => (hinv e he).1
        | exact fun e he => hnode2 _ (hinv e he).2.1
        | exact fun e he => hnode2 _ (hinv e he).2.2.1
        | exact fun e he => (hinv e he).2.2.2
      }
  | remove g id _ ih =>
      have harts : (removeArticle g id).articles = g.articles.filter (fun a => ¬ a.id = id) := rfl
      have hedges : (removeArticle g id).edges =
          g.edges.filter (fun e => ¬ e.src = id ∧ ¬ e.dst = id) := rfl
      refine ⟨?_, ?_, ?_, ?_, ?_, ?_⟩
      · rw [harts]
        exact ih.ids_nodup.sublist (List.Sublist.map _ (List.filter_sublist _))
      · rw [harts]
        intro x hx
        exact ih.ids_ne x (List.mem_of_mem_filter hx)
      · intro e he
        rw [hedges] at he
        exact ih.edge_weight e (List.mem_of_mem_filter he)
      · intro e he
        rw [hedges] at he
        have hcond : ¬ e.src = id ∧ ¬ e.dst = id :=
          of_decide_eq_true (List.mem_filter.mp he).2
        rw [hasNode_iff, harts]
        have hsrc := (hasNode_iff g e.src).mp (ih.edge_src e (List.mem_of_mem_filter he))
        rcases List.mem_map.mp hsrc with ⟨y, hy, hyid⟩
        exact List.mem_map.mpr ⟨y, List.mem_filter.mpr
          ⟨hy, decide_eq_true (by rw [hyid]; exact hcond.1)⟩, hyid⟩
      · intro e he
        rw [hedges] at he
        have hcond : ¬ e.src = id ∧ ¬ e.dst = id :=
          of_decide_eq_true (List.mem_filter.mp he).2
        rw [hasNode_iff, harts]
        have hdst := (hasNode_iff g e.dst).mp (ih.edge_dst e (List.mem_of_mem_filter he))
        rcases List.mem_map.mp hdst with ⟨y, hy, hyid⟩
        exact List.mem_map.mpr ⟨y, List.mem_filter.mpr
          ⟨hy, decide_eq_true (by rw [hyid]; exact hcond.2)⟩, hyid⟩
      · intro e he
        rw [hedges] at he
        exact ih.edge_ne e (List.mem_of_mem_filter he)

/-- The chain graph is a reachable store state. -/
theorem chainGraph_reachable : Reachable chainGraph := by
  have h1 : addArticle emptyGraph artA = .ok (buildGraph [artA]) := by
    with_unfolding_all rfl
  have h2 : addArticle (buildGraph [artA]) artB = .ok (buildGraph [artA, artB]) := by
    with_unfolding_all rfl
  have h3 : addArticle (buildGraph [artA, artB]) artC = .ok chainGraph := by
    with_unfolding_all rfl
  exact Reachable.add _ _ _
    (Reachable.add _ _ _ (Reachable.add _ _ _ Reachable.empty h1) h2) h3

/-- C2: on every reachable graph state, the Dijkstra traversal cost of an
edge equals `1 / max(weight, 0.1)`, and since every installed edge weighs
at least 0.4 the floor is never engaged: the cost is `1 / weight`. -/
theorem reachable_edge_cost (g : GraphState) (hg : Reachable g) (e : Edge)
    (he : e ∈ g.edges) :
    dijkstraEdgeCost e.data.weight = 1 / max e.data.weight (1/10) ∧
    dijkstraEdgeCost e.data.weight = 1 / e.data.weight ∧
    4/10 ≤ e.data.weight := by
  have hw := (reachable_wf g hg).edge_weight e he
  have hw0 : ¬ e.data.weight = 0 := by
    intro h0
    rw [h0] at hw
    norm_num at hw
  have hmax : max e.data.weight (1/10 : Rat) = e.data.weight :=
    max_eq_left (le_trans (by norm_num) hw)
  unfold dijkstraEdgeCost
  rw [if_neg hw0, hmax]
  exact ⟨rfl, rfl, hw⟩

/-- Witness for C2 at the A–B edge of the chain graph. -/
theorem reachable_edge_cost_witness :
    dijkstraEdgeCost chainEdgeAB.data.weight = 1 / max chainEdgeAB.data.weight (1/10) ∧
    dijkstraEdgeCost chainEdgeAB.data.weight = 1 / chainEdgeAB.data.weight ∧
    4/10 ≤ chainEdgeAB.data.weight :=
  reachable_edge_cost chainGraph chainGraph_reachable chainEdgeAB
    (by with_unfolding_all decide)

/-- C5 (amended): referencing an absent id fails with a not-found error
only for the distance and within-distance queries; `getConnections` returns
`[]`, the facade `getArticle` returns `null`, removal silently leaves the
state unchanged, and `relevanceScore` returns 0 for absent ids and for
unreachable pairs. -/
theorem absent_id_behavior (g : GraphState) (hg : Reachable g) (x : String)
    (hx : hasNode g x = false) :
    (∀ y w, calculateDistance g x y w = .error ("Source article " ++ x ++ " not found")) ∧
    (∀ y w, hasNode g y = true →
      calculateDistance g y x w = .error ("Target article " ++ x ++ " not found")) ∧
    (∀ m w, findArticlesWithinDistance g x m w =
      .error ("Source article " ++ x ++ " not found")) ∧
    (∀ m w, getRelatedArticles g x m w = .error ("Article " ++ x ++ " not found")) ∧
    getConnections g x = [] ∧
    serviceGetArticle g x = none ∧
    removeArticle g x = g ∧
    (∀ t, getRelevanceScore g x t = 0) ∧
    (∀ s, getRelevanceScore g s x = 0) ∧
    (∀ u v, distanceValue g u v true = none → getRelevanceScore g u v = 0) := by
  have wf := reachable_wf g hg
  have hxne : ¬ hasNode g x = true := by
    rw [hx]
    exact Bool.false_ne_true
  have hsrc : ∀ y w, calculateDistance g x y w =
      .error ("Source article " ++ x ++ " not found") := by
    intro y w
    unfold calculateDistance
    rw [if_pos hxne]
  have htgt : ∀ y w, hasNode g y = true →
      calculateDistance g y x w = .error ("Target article " ++ x ++ " not found") := by
    intro y w hy
    unfold calculateDistance
    rw [if_neg (fun hc => hc hy), if_pos hxne]
  refine ⟨hsrc, htgt, ?_, ?_, ?_, ?_, ?_, ?_, ?_, ?_⟩
  · intro m w
    unfold findArticlesWithinDistance
    rw [if_pos hxne]
  · intro m w
    unfold getRelatedArticles
    rw [if_pos hxne]
  · have hnb : neighborIds g x = [] := by
      unfold neighborIds
      rw [List.filterMap_eq_nil_iff]
      intro e he
      have hs : ¬ e.src = x := fun hc => hxne (hc ▸ wf.edge_src e he)
      have hd : ¬ e.dst = x := fun hc => hxne (hc ▸ wf.edge_dst e he)
      rw [if_neg hs, if_neg hd]
    unfold getConnections
    rw [hnb]
    rfl
  · have hfind : getArticleG g x = none := by
      unfold getArticleG
      rw [List.find?_eq_none]
      intro a ha
      simp only [decide_eq_true_eq]
      intro hc
      exact hxne ((hasNode_iff g x).mpr (List.mem_map.mpr ⟨a, ha, hc⟩))
    unfold serviceGetArticle
    rw [hfind]
  · cases g with
    | mk arts edges =>
        unfold removeArticle
        simp only [GraphState.mk.injEq]
        constructor
        · rw [List.filter_eq_self]
          intro a ha
          simp only [decide_eq_true_eq]
          intro hc
          exact hxne ((hasNode_iff _ x).mpr (List.mem_map.mpr ⟨a, ha, hc⟩))
        · rw [List.filter_eq_self]
          intro e he
          have hs : ¬ e.src = x := fun hc => hxne (hc ▸ wf.edge_src e he)
          have hd : ¬ e.dst = x := fun hc => hxne (hc ▸ wf.edge_dst e he)
          exact decide_eq_true ⟨hs, hd⟩
  · intro t
    unfold getRelevanceScore
    rw [hsrc t true]
  · intro s
    cases hs : hasNode g s
    · unfold getRelevanceScore
      have : calculateDistance g s x true =
          .error ("Source article " ++ s ++ " not found") := by
        unfold calculateDistance
        rw [if_pos (by rw [hs]; exact Bool.false_ne_true)]
      rw [this]
    · unfold getRelevanceScore
      rw [htgt s true hs]
  · intro u v hd
    unfold distanceValue at hd
    unfold getRelevanceScore
    cases hc : calculateDistance g u v true with
    | error e => rfl
    | ok r =>
        rw [hc] at hd
        simp only at hd
        simp [hd]

/-- Witness for the amended C5 at the chain graph and the unknown id
"zz". -/
theorem absent_id_behavior_witness :
    (∀ y w, calculateDistance chainGraph "zz" y w =
      .error ("Source article " ++ "zz" ++ " not found")) ∧
    (∀ y w, hasNode chainGraph y = true →
      calculateDistance chainGraph y "zz" w =
        .error ("Target article " ++ "zz" ++ " not found")) ∧
    (∀ m w, findArticlesWithinDistance chainGraph "zz" m w =
      .error ("Source article " ++ "zz" ++ " not found")) ∧
    (∀ m w, getRelatedArticles chainGraph "zz" m w =
      .error ("Article " ++ "zz" ++ " not found")) ∧
    getConnections chainGraph "zz" = [] ∧
    serviceGetArticle chainGraph "zz" = none ∧
    removeArticle chainGraph "zz" = chainGraph ∧
    (∀ t, getRelevanceScore chainGraph "zz" t = 0) ∧
    (∀ s, getRelevanceScore chainGraph s "zz" = 0) ∧
    (∀ u v, distanceValue chainGraph u v true = none →
      getRelevanceScore chainGraph u v = 0) :=
  absent_id_behavior chainGraph chainGraph_reachable "zz" (by with_unfolding_all rfl)

/-- Witness for C6 at the Dublin/Meath pair of the spec. -/
theorem proximity_iff_adjacent_witness :
    (findProximityRelationship artDub artMeath).isSome = true ∧
    ((⟨.PROXIMITY, 4/10, ["Dublin", "Meath"]⟩ : Relationship).rtype = .PROXIMITY ∧
     (⟨.PROXIMITY, 4/10, ["Dublin", "Meath"]⟩ : Relationship).weight = 4/10 ∧
     (⟨.PROXIMITY, 4/10, ["Dublin", "Meath"]⟩ : Relationship).sharedElements = ["Dublin", "Meath"]) ∧
    findProximityRelationship artDub artDub = none :=
  ⟨(proximity_iff_adjacent artDub artMeath).1.mpr
      ⟨by with_unfolding_all rfl, by with_unfolding_all decide⟩,
   (proximity_iff_adjacent artDub artMeath).2.1 _ (by with_unfolding_all rfl),
   (proximity_iff_adjacent artDub artDub).2.2 rfl⟩

/-- C1: in a three-article graph with an A–B edge of weight 1.0, a B–C edge
of weight 0.4 and no A–C edge, the weighted distance from A to C is
`1/1.0 + 1/0.4 = 3.5`, the hop-count distance is `2`, and
`relevanceScore(A,C) = 1/(1+3.5)`. -/
theorem chain_scenario_distances :
    (edgeLookup chainGraph "a" "b").map (·.weight) = some 1 ∧
    (edgeLookup chainGraph "b" "c").map (·.weight) = some (4/10) ∧
    edgeLookup chainGraph "a" "c" = none ∧
    distanceValue chainGraph "a" "c" true = some (1/1 + 1/(4/10)) ∧
    (1/1 + 1/(4/10) : Rat) = 7/2 ∧
    distanceValue chainGraph "a" "c" false = some 2 ∧
    getRelevanceScore chainGraph "a" "c" = 1 / (1 + 7/2) := by
  with_unfolding_all decide

/-- C3 (counterexample): the adjacency table lists Tyrone as a neighbor of
Derry but not Derry as a neighbor of Tyrone, so inserting the same two
articles in the two possible orders produces different edge sets: a
PROXIMITY edge exists when the Derry article arrives second and no edge at
all when it arrives first. -/
theorem insertion_order_changes_edges :
    (buildGraph [artTyrone, artDerry]).articles.Perm (buildGraph [artDerry, artTyrone]).articles ∧
    edgeProfile (buildGraph [artTyrone, artDerry]) "d" "t" = some ([.PROXIMITY], 4/10) ∧
    edgeProfile (buildGraph [artDerry, artTyrone]) "d" "t" = none := by
  refine ⟨?_, ?_, ?_⟩
  · have h1 : (buildGraph [artTyrone, artDerry]).articles = [artTyrone, artDerry] := by
      with_unfolding_all rfl
    have h2 : (buildGraph [artDerry, artTyrone]).articles = [artDerry, artTyrone] := by
      with_unfolding_all rfl
    rw [h1, h2]
    exact List.Perm.swap artDerry artTyrone []
  · with_unfolding_all rfl
  · with_unfolding_all rfl

/-- C4 (counterexample): inserting an article whose id is already present
does not fail with any error — it succeeds and changes the graph (the
stored record for the id is replaced). -/
theorem duplicate_insert_succeeds :
    hasNode chainGraph "a" = true ∧
    addArticle chainGraph artAKerry = .ok dupInsertGraph ∧
    dupInsertGraph ≠ chainGraph ∧
    getArticleG dupInsertGraph "a" = some artAKerry := by
  refine ⟨by with_unfolding_all rfl, by with_unfolding_all rfl,
    by with_unfolding_all decide, by with_unfolding_all rfl⟩

/-- C5 (counterexample): querying with an unknown id does not raise
`NotFoundError` from every operation — `getConnections` returns `[]`, the
facade `getArticle` returns `null`, and removal is a silent no-op. -/
theorem absent_id_silent_operations :
    hasNode chainGraph "zz" = false ∧
    getConnections chainGraph "zz" = [] ∧
    serviceGetArticle chainGraph "zz" = none ∧
    removeArticle chainGraph "zz" = chainGraph := by
  with_unfolding_all decide

/-- C7 (counterexample): in unweighted mode the reconstructed path carries
no relationship evidence and no edge weight on any element, including the
non-terminal ones. -/
theorem unweighted_path_lacks_evidence :
    calculateDistance chainGraph "a" "c" false = .ok chainUnweightedResult ∧
    chainUnweightedResult.distance = some 2 ∧
    chainUnweightedResult.path.map (fun it => (it.id, it.relationships, it.edgeWeight)) =
      [("a", none, none), ("b", none, none), ("c", none, none)] := by
  refine ⟨by with_unfolding_all rfl, by with_unfolding_all rfl, by with_unfolding_all rfl⟩

/-- C8 (counterexample): a node at fractional weighted distance
`1/0.9 ≤ 2` is reachable within the bound but appears in no integer bucket
of `getRelatedArticles` — it is dropped, not grouped under an integer. -/
theorem fractional_distance_dropped :
    (edgeLookup matchPairGraph "m1" "m2").map (·.weight) = some (9/10) ∧
    distanceValue matchPairGraph "m1" "m2" true = some (1/(9/10)) ∧
    ((1 : Rat)/(9/10) ≤ 2) ∧
    getRelatedArticles matchPairGraph "m1" 2 true = .ok [(1, []), (2, [])] := by
  refine ⟨by with_unfolding_all rfl, by with_unfolding_all rfl,
    by with_unfolding_all decide, by with_unfolding_all rfl⟩

/-- C9 (counterexample): when a club name occurs twice in the first
article, the SAME_CLUB evidence lists the matched name twice — it is not
deduplicated. -/
theorem same_club_evidence_duplicated :
    findSameClubRelationship artDupA artDupB =
      some { rtype := .SAME_CLUB, weight := 1, sharedElements := ["X", "X"] } ∧
    ¬ (["X", "X"] : List String).Nodup := by
  constructor
  · with_unfolding_all rfl
  · decide

/-! Characterization of the within-distance grouping. -/

/-- `find?` by key commutes with a key-preserving value update. -/
theorem find?_map_snd {κ β : Type} (l : List (κ × β)) (f : κ × β → β) (p : κ → Bool) :
    (l.map (fun q => (q.1, f q))).find? (fun q => p q.1) =
      (l.find? (fun q => p q.1)).map (fun q => (q.1, f q)) := by
  induction l with
  | nil => rfl
  | cons x xs ih =>
      cases hx : p x.1
      · rw [List.map_cons, List.find?_cons_of_neg _ (by simp [hx]),
          List.find?_cons_of_neg _ (by simp [hx]), ih]
      · rw [List.map_cons, List.find?_cons_of_pos _ (by simp [hx]),
          List.find?_cons_of_pos _ (by simp [hx])]
        rfl

/-- Effect of `addToGroup` on a group lookup. -/
theorem groupLookup_addToGroup (results : List (Rat × List WithinEntry))
    (d : Rat) (x : WithinEntry) (d2 : Rat) :
    groupLookup (addToGroup results d x) d2 =
      if d2 = d then groupLookup results d ++ [x] else groupLookup results d2 := by
  unfold addToGroup groupLookup
  cases hany : results.any (fun p => p.1 = d)
  · rw [if_neg (by simp [hany])]
    have hnone : results.find? (fun p => p.1 = d) = none := by
      cases hf : results.find? (fun p => p.1 = d) with
      | none => rfl
      | some q =>
          have hq := List.find?_some hf
          have hm := List.mem_of_find?_eq_some hf
          have hcontra : results.any (fun p => p.1 = d) = true :=
            List.any_eq_true.mpr ⟨q, hm, hq⟩
          rw [hcontra] at hany
          cases hany
    by_cases hd2 : d2 = d
    · subst hd2
      rw [List.find?_append, hnone, if_pos rfl]
      simp [List.find?_cons_of_pos]
    · rw [if_neg hd2, List.find?_append]
      cases hf : results.find? (fun p => p.1 = d2)
      · rw [List.find?_cons_of_neg _
          (by simp only [decide_eq_true_eq]; exact fun h => hd2 h.symm), List.find?_nil]
        rfl
      · rfl
  · rw [if_pos (by simp [hany])]
    have hmap : results.map (fun p => if p.1 = d then (p.1, p.2 ++ [x]) else p) =
        results.map (fun q => (q.1, if q.1 = d then q.2 ++ [x] else q.2)) := by
      refine List.map_congr_left (fun q _ => ?_)
      by_cases hq : q.1 = d
      · rw [if_pos hq, if_pos hq]
      · rw [if_neg hq, if_neg hq]
    rw [hmap, find?_map_snd results (fun q => if q.1 = d then q.2 ++ [x] else q.2)
      (fun k => decide (k = d2))]
    by_cases hd2 : d2 = d
    · subst hd2
      rcases List.any_eq_true.mp hany with ⟨p, hp, hpd⟩
      have hpd2 : p.1 = d2 := of_decide_eq_true hpd
      cases hf : results.find? (fun q => decide (q.1 = d2))
      · rw [List.find?_eq_none] at hf
        exact absurd (decide_eq_true hpd2) (hf p hp)
      next pf =>
        have hfs := List.find?_some hf
        have hpf : pf.1 = d2 := of_decide_eq_true hfs
        rw [if_pos rfl]
        simp [hpf]
    · rw [if_neg hd2]
      cases hf : results.find? (fun q => decide (q.1 = d2))
      · rfl
      next pf =>
        have hfs := List.find?_some hf
        have hpf : pf.1 = d2 := of_decide_eq_true hfs
        have hpfd : ¬ pf.1 = d := fun h => hd2 (by rw [← hpf, h])
        simp [hpfd]

/-- The within-distance fold, characterized: the group at distance `d`
collects exactly the articles whose computed distance is `d`, in store
order, each rendered by `mkWithinEntry`. -/
theorem wd_fold_groups (g : GraphState) (s : String) (maxD : Rat) (w : Bool)
    (L : List Article) (acc : List (Rat × List WithinEntry)) (d : Rat) :
    groupLookup (L.foldl (wdStep g s maxD w) acc) d =
      groupLookup acc d ++
      (L.filter (withinPred g s maxD w d)).map (fun a => mkWithinEntry g s a d) := by
  induction L generalizing acc with
  | nil => simp
  | cons a L ih =>
      rw [List.foldl_cons, ih]
      have hstep : groupLookup (wdStep g s maxD w acc a) d =
          groupLookup acc d ++
          (if withinPred g s maxD w d a then [mkWithinEntry g s a d] else []) := by
        unfold wdStep
        by_cases ha : a.id = s
        · rw [if_pos ha]
          have hpred : withinPred g s maxD w d a = false := by
            unfold withinPred
            simp [ha]
          rw [hpred]
          simp
        · rw [if_neg ha]
          cases hc : calculateDistance g s a.id w with
          | error e =>
              have hpred : withinPred g s maxD w d a = false := by
                unfold withinPred distanceValue
                rw [hc]
                simp
              rw [hpred]
              simp
          | ok dr =>
              dsimp only
              have hdve : distanceValue g s a.id w = dr.distance := by
                unfold distanceValue
                rw [hc]
              cases hdist : dr.distance with
              | none =>
                  have hpred : withinPred g s maxD w d a = false := by
                    unfold withinPred
                    rw [hdve, hdist]
                    simp
                  rw [hpred]
                  simp
              | some d0 =>
                  have hdv : distanceValue g s a.id w = some d0 := by
                    rw [hdve, hdist]
                  dsimp only
                  by_cases hle : d0 ≤ maxD
                  · rw [if_pos hle, groupLookup_addToGroup]
                    by_cases hdd : d = d0
                    · subst hdd
                      have hpred : withinPred g s maxD w d a = true := by
                        unfold withinPred
                        simp [ha, hdv, hle]
                      rw [if_pos rfl, hpred]
                      simp [mkWithinEntry]
                    · have hpred : withinPred g s maxD w d a = false := by
                        unfold withinPred
                        apply decide_eq_false
                        rintro ⟨-, h2, -⟩
                        rw [hdv] at h2
                        cases h2
                        exact hdd rfl
                      rw [if_neg hdd, hpred]
                      simp
                  · rw [if_neg hle]
                    have hpred : withinPred g s maxD w d a = false := by
                      unfold withinPred
                      apply decide_eq_false
                      rintro ⟨-, h2, h3⟩
                      rw [hdv] at h2
                      cases h2
                      exact hle h3
                    rw [hpred]
                    simp
      rw [hstep, List.filter_cons]
      by_cases hp : withinPred g s maxD w d a = true
      · rw [if_pos hp, hp]
        simp
      · rw [if_neg hp]
        have : withinPred g s maxD w d a = false := by
          cases hb : withinPred g s maxD w d a
          · rfl
          · exact absurd hb hp
        rw [this]
        simp

/-- C10: in the within-distance results, the relationships and weight of a
returned entry are looked up only on the direct edge between the source and
that node; an entry whose node shares no direct edge with the source
carries an empty relationship list and weight 0. -/
theorem within_distance_direct_edge_only (g : GraphState) (s : String)
    (maxD : Rat) (w : Bool) (hs : hasNode g s = true) :
    ∃ res, findArticlesWithinDistance g s maxD w = .ok res ∧
      ∀ d, ∀ x ∈ groupLookup res d,
        x.relationships = ((edgeLookup g s x.id).map (·.relationships)).getD [] ∧
        x.weight = ((edgeLookup g s x.id).map (·.weight)).getD 0 ∧
        (edgeLookup g s x.id = none → x.relationships = [] ∧ x.weight = 0) := by
  refine ⟨g.articles.foldl (wdStep g s maxD w) [], ?_, ?_⟩
  · unfold findArticlesWithinDistance
    rw [if_neg (fun hc => hc hs)]
  · intro d x hx
    rw [wd_fold_groups] at hx
    simp only [groupLookup, List.find?_nil, Option.map_none, Option.getD_none,
      List.nil_append] at hx
    rcases List.mem_map.mp hx with ⟨a, _, rfl⟩
    refine ⟨rfl, rfl, ?_⟩
    intro hnone
    have hnone2 : edgeLookup g s a.id = none := hnone
    unfold mkWithinEntry
    rw [hnone2]
    exact ⟨rfl, rfl⟩

/-- Witness for C10 at the chain graph: source A, weighted bound 4 (article
C is returned at distance 3.5 through B with no direct A–C edge). -/
theorem within_distance_direct_edge_only_witness :
    ∃ res, findArticlesWithinDistance chainGraph "a" 4 true = .ok res ∧
      ∀ d, ∀ x ∈ groupLookup res d,
        x.relationships = ((edgeLookup chainGraph "a" x.id).map (·.relationships)).getD [] ∧
        x.weight = ((edgeLookup chainGraph "a" x.id).map (·.weight)).getD 0 ∧
        (edgeLookup chainGraph "a" x.id = none → x.relationships = [] ∧ x.weight = 0) :=
  within_distance_direct_edge_only chainGraph "a" 4 true (by with_unfolding_all rfl)

/-- C8 (amended): the facade returns, for each integer level `d` in
`1..maxDistance`, exactly the articles whose computed distance equals the
integer `d`; articles at fractional weighted distances within the bound are
omitted from every bucket rather than grouped under a ceiling. -/
theorem related_articles_integer_buckets (g : GraphState) (s : String)
    (hs : hasNode g s = true) (maxD : Nat) (w : Bool) :
    ∃ res, findArticlesWithinDistance g s (maxD : Rat) w = .ok res ∧
      getRelatedArticles g s maxD w =
        .ok ((List.range' 1 maxD).map (fun d => (d, groupLookup res (d : Rat)))) ∧
      ∀ d : Rat, groupLookup res d =
        (g.articles.filter (withinPred g s (maxD : Rat) w d)).map
          (fun a => mkWithinEntry g s a d) := by
  have hfw : findArticlesWithinDistance g s (maxD : Rat) w =
      .ok (g.articles.foldl (wdStep g s (maxD : Rat) w) []) := by
    unfold findArticlesWithinDistance
    rw [if_neg (fun hc => hc hs)]
  refine ⟨g.articles.foldl (wdStep g s (maxD : Rat) w) [], hfw, ?_, ?_⟩
  · unfold getRelatedArticles
    rw [if_neg (fun hc => hc hs), hfw]
  · intro d
    rw [wd_fold_groups]
    simp [groupLookup]

/-- Witness for the amended C8 at the fractional-distance pair graph. -/
theorem related_articles_integer_buckets_witness :
    ∃ res, findArticlesWithinDistance matchPairGraph "m1" ((2 : Nat) : Rat) true = .ok res ∧
      getRelatedArticles matchPairGraph "m1" 2 true =
        .ok ((List.range' 1 2).map (fun d => (d, groupLookup res (d : Rat)))) ∧
      ∀ d : Rat, groupLookup res d =
        (matchPairGraph.articles.filter (withinPred matchPairGraph "m1" ((2 : Nat) : Rat) true d)).map
          (fun a => mkWithinEntry matchPairGraph "m1" a d) :=
  related_articles_integer_buckets matchPairGraph "m1" (by with_unfolding_all rfl) 2 true

/-! Symmetry of the relationship detector up to relationship types and
weights. -/

/-- SAME_LEAGUE fires exactly when some pair of leagues shares a normalized
name. -/
theorem league_isSome_iff (a b : Article) :
    (findSameLeagueRelationship a b).isSome = true ↔
      ∃ s1 ∈ a.metadata.leagues, ∃ s2 ∈ b.metadata.leagues,
        normName s1 = normName s2 := by
  have hex : ((a.metadata.leagues.map normName).filter
      (fun n => (b.metadata.leagues.map normName).contains n) ≠ []) ↔
      ∃ s1 ∈ a.metadata.leagues, ∃ s2 ∈ b.metadata.leagues,
        normName s1 = normName s2 := by
    rw [ne_eq, List.filter_eq_nil_iff]
    constructor
    · intro hne
      by_contra hnex
      apply hne
      intro n hn hcont
      obtain ⟨s1, hs1, hs1n⟩ := List.mem_map.mp hn
      obtain ⟨s2, hs2, hs2n⟩ := List.mem_map.mp (List.elem_iff.mp hcont)
      exact hnex ⟨s1, hs1, s2, hs2, by rw [hs1n, hs2n]⟩
    · rintro ⟨s1, hs1, s2, hs2, heq⟩ hall
      refine hall (normName s1) (List.mem_map.mpr ⟨s1, hs1, rfl⟩) ?_
      exact List.elem_iff.mpr (List.mem_map.mpr ⟨s2, hs2, heq.symm⟩)
  unfold findSameLeagueRelationship
  by_cases hs : (a.metadata.leagues.map normName).filter
      (fun n => (b.metadata.leagues.map normName).contains n) = []
  · rw [if_neg (by simpa using hs)]
    simp only [Option.isSome_none, Bool.false_eq_true, false_iff]
    exact fun hcon => (hex.mpr hcon) hs
  · rw [if_pos (by simpa using hs)]
    simp only [Option.isSome_some, true_iff]
    exact hex.mp hs

/-- MATCH_PLAYED fires exactly when some pair of matches has overlapping
team sets. -/
theorem matchp_isSome_iff (a b : Article) :
    (findMatchPlayedRelationship a b).isSome = true ↔
      ∃ m1 ∈ a.metadata.«matches», ∃ m2 ∈ b.metadata.«matches»,
        listOverlap (teamsOf m1) (teamsOf m2) = true := by
  have key : ∀ ms : List MatchRec,
      (ms.foldr (fun m1 acc =>
        (b.metadata.«matches».filterMap (fun m2 =>
          if listOverlap (teamsOf m1) (teamsOf m2) then
            some (firstDedup (teamsOf m1 ++ teamsOf m2))
          else none)) ++ acc) [] ≠ []) ↔
      ∃ m1 ∈ ms, ∃ m2 ∈ b.metadata.«matches»,
        listOverlap (teamsOf m1) (teamsOf m2) = true := by
    intro ms
    induction ms with
    | nil => simp
    | cons m ms ih =>
        rw [List.foldr_cons]
        constructor
        · intro hne
          by_cases h1 : b.metadata.«matches».filterMap (fun m2 =>
              if listOverlap (teamsOf m) (teamsOf m2) then
                some (firstDedup (teamsOf m ++ teamsOf m2))
              else none) = []
          · have h2 : ms.foldr (fun m1 acc =>
                (b.metadata.«matches».filterMap (fun m2 =>
                  if listOverlap (teamsOf m1) (teamsOf m2) then
                    some (firstDedup (teamsOf m1 ++ teamsOf m2))
                  else none)) ++ acc) [] ≠ [] := by
              intro hc
              exact hne (by rw [h1, hc]; rfl)
            rcases ih.mp h2 with ⟨m1, hm1, m2, hm2, hov⟩
            exact ⟨m1, List.mem_cons_of_mem m hm1, m2, hm2, hov⟩
          · obtain ⟨x, hx⟩ := List.exists_mem_of_ne_nil _ h1
            obtain ⟨m2, hm2, hfm⟩ := List.mem_filterMap.mp hx
            by_cases hov : listOverlap (teamsOf m) (teamsOf m2) = true
            · exact ⟨m, List.mem_cons_self m ms, m2, hm2, hov⟩
            · rw [if_neg (by simpa using hov)] at hfm
              cases hfm
        · rintro ⟨m1, hm1, m2, hm2, hov⟩
          intro hnil
          rcases List.append_eq_nil.mp hnil with ⟨hleft, hright⟩
          rcases List.mem_cons.mp hm1 with rfl | hm1s
          · rw [List.filterMap_eq_nil_iff] at hleft
            have := hleft m2 hm2
            rw [if_pos hov] at this
            cases this
          · exact (ih.mpr ⟨m1, hm1s, m2, hm2, hov⟩) hright
  unfold findMatchPlayedRelationship
  dsimp only
  by_cases hs : a.metadata.«matches».foldr (fun m1 acc =>
      (b.metadata.«matches».filterMap (fun m2 =>
        if listOverlap (teamsOf m1) (teamsOf m2) then
          some (firstDedup (teamsOf m1 ++ teamsOf m2))
        else none)) ++ acc) [] = []
  · rw [if_neg (by simpa using hs)]
    simp only [Option.isSome_none, Bool.false_eq_true, false_iff]
    exact fun hcon => ((key _).mpr hcon) hs
  · rw [if_pos (by simpa using hs)]
    simp only [Option.isSome_some, true_iff]
    exact (key _).mp hs

/-- Team-set overlap is symmetric. -/
theorem listOverlap_comm (l1 l2 : List String) :
    listOverlap l1 l2 = listOverlap l2 l1 := by
  rw [Bool.eq_iff_iff]
  unfold listOverlap
  rw [List.any_eq_true, List.any_eq_true]
  constructor
  · rintro ⟨x, hx, hc⟩
    exact ⟨x, List.elem_iff.mp hc, List.elem_iff.mpr hx⟩
  · rintro ⟨x, hx, hc⟩
    exact ⟨x, List.elem_iff.mp hc, List.elem_iff.mpr hx⟩

/-- Whether PROXIMITY fires is exactly the adjacency-table bit. -/
theorem prox_isSome_eq (a b : Article) :
    (findProximityRelationship a b).isSome =
      adjacentInTable a.metadata.primaryCounty b.metadata.primaryCounty := by
  rw [prox_char]
  by_cases h : adjacentInTable a.metadata.primaryCounty b.metadata.primaryCounty = true
  · rw [if_pos h, h]
    rfl
  · rw [if_neg h]
    cases hb : adjacentInTable a.metadata.primaryCounty b.metadata.primaryCounty
    · rfl
    · exact absurd hb h

/-- The type/weight profile of one detection, as a function of the four
fire bits. -/
theorem findRelationships_typeWeight (a b : Article) :
    (findRelationships a b).map (fun r => (r.rtype, r.weight)) =
      (if (findSameClubRelationship a b).isSome then [(RelType.SAME_CLUB, (1 : Rat))] else []) ++
      (if (findProximityRelationship a b).isSome then [(RelType.PROXIMITY, 4/10)] else []) ++
      (if (findMatchPlayedRelationship a b).isSome then [(RelType.MATCH_PLAYED, 9/10)] else []) ++
      (if (findSameLeagueRelationship a b).isSome then [(RelType.SAME_LEAGUE, 1/2)] else []) := by
  have h1 : (findSameClubRelationship a b).toList.map (fun r => (r.rtype, r.weight)) =
      (if (findSameClubRelationship a b).isSome then [(RelType.SAME_CLUB, (1 : Rat))] else []) := by
    cases hc : findSameClubRelationship a b with
    | none => rfl
    | some r =>
        obtain ⟨ht, hw⟩ := club_some_shape a b r hc
        simp [ht, hw]
  have h2 : (findProximityRelationship a b).toList.map (fun r => (r.rtype, r.weight)) =
      (if (findProximityRelationship a b).isSome then [(RelType.PROXIMITY, (4 : Rat)/10)] else []) := by
    cases hc : findProximityRelationship a b with
    | none => rfl
    | some r =>
        obtain ⟨ht, hw⟩ := prox_some_shape a b r hc
        simp [ht, hw]
  have h3 : (findMatchPlayedRelationship a b).toList.map (fun r => (r.rtype, r.weight)) =
      (if (findMatchPlayedRelationship a b).isSome then [(RelType.MATCH_PLAYED, (9 : Rat)/10)] else []) := by
    cases hc : findMatchPlayedRelationship a b with
    | none => rfl
    | some r =>
        obtain ⟨ht, hw⟩ := matchp_some_shape a b r hc
        simp [ht, hw]
  have h4 : (findSameLeagueRelationship a b).toList.map (fun r => (r.rtype, r.weight)) =
      (if (findSameLeagueRelationship a b).isSome then [(RelType.SAME_LEAGUE, (1 : Rat)/2)] else []) := by
    cases hc : findSameLeagueRelationship a b with
    | none => rfl
    | some r =>
        obtain ⟨ht, hw⟩ := league_some_shape a b r hc
        simp [ht, hw]
  unfold findRelationships
  rw [List.map_append, List.map_append, List.map_append, h1, h2, h3, h4]

/-- The aggregated edge weight only depends on the weight sequence. -/
theorem cew_congr (l1 l2 : List Relationship)
    (h : l1.map (·.weight) = l2.map (·.weight)) :
    calculateEdgeWeight l1 = calculateEdgeWeight l2 := by
  cases l1 with
  | nil =>
      cases l2 with
      | nil => rfl
      | cons y ys => simp at h
  | cons x xs =>
      cases l2 with
      | nil => simp at h
      | cons y ys =>
          simp only [List.map_cons, List.cons.injEq] at h
          unfold calculateEdgeWeight
          dsimp only
          rw [h.1, h.2]

/-- Detection is symmetric up to types and aggregated weight whenever the
adjacency table treats the two primary counties symmetrically. -/
theorem relProfile_symm (a b : Article)
    (hadj : adjacentInTable a.metadata.primaryCounty b.metadata.primaryCounty =
      adjacentInTable b.metadata.primaryCounty a.metadata.primaryCounty) :
    relProfile a b = relProfile b a := by
  have hclub : (findSameClubRelationship a b).isSome =
      (findSameClubRelationship b a).isSome := by
    rw [Bool.eq_iff_iff, club_isSome_iff, club_isSome_iff]
    constructor
    · rintro ⟨c1, h1, c2, h2, he⟩
      exact ⟨c2, h2, c1, h1, he.symm⟩
    · rintro ⟨c1, h1, c2, h2, he⟩
      exact ⟨c2, h2, c1, h1, he.symm⟩
  have hleague : (findSameLeagueRelationship a b).isSome =
      (findSameLeagueRelationship b a).isSome := by
    rw [Bool.eq_iff_iff, league_isSome_iff, league_isSome_iff]
    constructor
    · rintro ⟨s1, h1, s2, h2, he⟩
      exact ⟨s2, h2, s1, h1, he.symm⟩
    · rintro ⟨s1, h1, s2, h2, he⟩
      exact ⟨s2, h2, s1, h1, he.symm⟩
  have hmatch : (findMatchPlayedRelationship a b).isSome =
      (findMatchPlayedRelationship b a).isSome := by
    rw [Bool.eq_iff_iff, matchp_isSome_iff, matchp_isSome_iff]
    constructor
    · rintro ⟨m1, h1, m2, h2, he⟩
      exact ⟨m2, h2, m1, h1, by rw [listOverlap_comm]; exact he⟩
    · rintro ⟨m1, h1, m2, h2, he⟩
      exact ⟨m2, h2, m1, h1, by rw [listOverlap_comm]; exact he⟩
  have hprox : (findProximityRelationship a b).isSome =
      (findProximityRelationship b a).isSome := by
    rw [prox_isSome_eq, prox_isSome_eq, hadj]
  have htw : (findRelationships a b).map (fun r => (r.rtype, r.weight)) =
      (findRelationships b a).map (fun r => (r.rtype, r.weight)) := by
    rw [findRelationships_typeWeight, findRelationships_typeWeight,
      hclub, hleague, hmatch, hprox]
  have hnil : findRelationships a b = [] ↔ findRelationships b a = [] := by
    constructor
    · intro hh
      have h2 := htw
      rw [hh] at h2
      simp only [List.map_nil] at h2
      exact List.map_eq_nil_iff.mp h2.symm
    · intro hh
      have h2 := htw
      rw [hh] at h2
      simp only [List.map_nil] at h2
      exact List.map_eq_nil_iff.mp h2
  unfold relProfile
  by_cases h : findRelationships a b = []
  · rw [if_pos h, if_pos (hnil.mp h)]
  · rw [if_neg h, if_neg (fun hc => h (hnil.mpr hc))]
    have hty : (findRelationships a b).map (·.rtype) =
        (findRelationships b a).map (·.rtype) := by
      have := congrArg (List.map Prod.fst) htw
      rw [List.map_map, List.map_map] at this
      exact this
    have hwe : (findRelationships a b).map (·.weight) =
        (findRelationships b a).map (·.weight) := by
      have := congrArg (List.map Prod.snd) htw
      rw [List.map_map, List.map_map] at this
      exact this
    rw [hty, cew_congr _ _ hwe]

/-! Edge installation under insertion, characterized. -/

/-- `find?` on a cons whose head satisfies the predicate, with the
predicate explicit. -/
theorem find?_cons_pos2 {α : Type} (p : α → Bool) (a : α) (l : List α)
    (h : p a = true) : (a :: l).find? p = some a := by
  simp [List.find?, h]

/-- `find?` on a cons whose head fails the predicate, with the predicate
explicit. -/
theorem find?_cons_neg2 {α : Type} (p : α → Bool) (a : α) (l : List α)
    (h : p a = false) : (a :: l).find? p = l.find? p := by
  simp [List.find?, h]

/-- Matching an undirected edge is symmetric in the query pair. -/
theorem edgeMatches_comm (e : Edge) (u v : String) :
    edgeMatches e u v = edgeMatches e v u := by
  unfold edgeMatches
  exact decide_eq_decide.mpr (by tauto)

/-- Edge lookup is symmetric in the query pair. -/
theorem edgeFind_comm (es : List Edge) (u v : String) :
    edgeFind es u v = edgeFind es v u := by
  unfold edgeFind
  have hf : (fun e => edgeMatches e u v) = (fun e => edgeMatches e v u) :=
    funext (fun e => edgeMatches_comm e u v)
  rw [hf]

/-- An edge matching one unordered pair cannot match a different one. -/
theorem edgeMatches_both (e : Edge) (u v u2 v2 : String)
    (h1 : ¬ (u = u2 ∧ v = v2)) (h2 : ¬ (u = v2 ∧ v = u2))
    (hm : edgeMatches e u v = true) : edgeMatches e u2 v2 = false := by
  unfold edgeMatches at hm ⊢
  rw [decide_eq_true_eq] at hm
  apply decide_eq_false
  rintro (⟨hs, hd⟩ | ⟨hs, hd⟩) <;> rcases hm with ⟨hs2, hd2⟩ | ⟨hs2, hd2⟩
  · exact h1 ⟨by rw [← hs2, hs], by rw [← hd2, hd]⟩
  · exact h2 ⟨by rw [← hd2, hd], by rw [← hs2, hs]⟩
  · exact h2 ⟨by rw [← hs2, hs], by rw [← hd2, hd]⟩
  · exact h1 ⟨by rw [← hd2, hd], by rw [← hs2, hs]⟩

/-- `setEdge` on one pair leaves lookups of any other pair unchanged. -/
theorem edgeFind_setEdge_other (es : List Edge) (u v : String) (d : EdgeData)
    (u2 v2 : String) (h1 : ¬ (u = u2 ∧ v = v2)) (h2 : ¬ (u = v2 ∧ v = u2)) :
    edgeFind (setEdge es u v d) u2 v2 = edgeFind es u2 v2 := by
  unfold setEdge
  split
  next hany =>
    clear hany
    unfold edgeFind
    induction es with
    | nil => rfl
    | cons e es ih =>
        rw [List.map_cons]
        by_cases hm2 : edgeMatches e u2 v2 = true
        · have hfe : (if edgeMatches e u v then { e with data := d } else e) = e := by
            by_cases hm : edgeMatches e u v = true
            · rw [edgeMatches_both e u v u2 v2 h1 h2 hm] at hm2
              cases hm2
            · rw [if_neg hm]
          rw [hfe, find?_cons_pos2 (fun e => edgeMatches e u2 v2) e _ hm2,
            find?_cons_pos2 (fun e => edgeMatches e u2 v2) e _ hm2]
        · have hm2f : edgeMatches e u2 v2 = false := by
            cases hb : edgeMatches e u2 v2
            · rfl
            · exact absurd hb hm2
          have hsame : edgeMatches (if edgeMatches e u v then { e with data := d } else e) u2 v2 =
              false := by
            by_cases hm : edgeMatches e u v = true
            · rw [if_pos hm]
              exact hm2f
            · rw [if_neg hm]
              exact hm2f
          rw [find?_cons_neg2 (fun e => edgeMatches e u2 v2) _ _ hsame,
            find?_cons_neg2 (fun e => edgeMatches e u2 v2) e _ hm2f]
          exact ih
  · unfold edgeFind
    rw [List.find?_append]
    cases hf : es.find? (fun e => edgeMatches e u2 v2)
    · have hself : edgeMatches ⟨u, v, d⟩ u v = true := by
        unfold edgeMatches
        simp
      have hnew : edgeMatches ⟨u, v, d⟩ u2 v2 = false :=
        edgeMatches_both ⟨u, v, d⟩ u v u2 v2 h1 h2 hself
      rw [find?_cons_neg2 (fun e => edgeMatches e u2 v2) _ _ hnew, List.find?_nil]
      rfl
    · rfl

/-- After `setEdge`, lookup of the set pair yields the new data. -/
theorem edgeFind_setEdge_self (es : List Edge) (u v : String) (d : EdgeData) :
    edgeFind (setEdge es u v d) u v = some d := by
  unfold setEdge
  split
  next hany =>
    unfold edgeFind
    induction es with
    | nil => simp at hany
    | cons e es ih =>
        rw [List.map_cons]
        by_cases hm : edgeMatches e u v = true
        · rw [if_pos hm]
          rw [find?_cons_pos2 (fun e => edgeMatches e u v) _ _
            (show edgeMatches { e with data := d } u v = true from hm)]
          rfl
        · have hmf : edgeMatches e u v = false := by
            cases hb : edgeMatches e u v
            · rfl
            · exact absurd hb hm
          rw [if_neg hm, find?_cons_neg2 (fun e => edgeMatches e u v) e _ hmf]
          apply ih
          rcases List.any_eq_true.mp hany with ⟨y, hy, hyp⟩
          rcases List.mem_cons.mp hy with rfl | hys
          · rw [hyp] at hm
            exact absurd rfl hm
          · exact List.any_eq_true.mpr ⟨y, hys, hyp⟩
  next hany =>
    unfold edgeFind
    rw [List.find?_append]
    have hnone : es.find? (fun e => edgeMatches e u v) = none := by
      rw [List.find?_eq_none]
      intro e he hm
      exact hany (List.any_eq_true.mpr ⟨e, he, hm⟩)
    rw [hnone]
    have hself : edgeMatches ⟨u, v, d⟩ u v = true := by
      unfold edgeMatches
      simp
    rw [find?_cons_pos2 (fun e => edgeMatches e u v) _ _ hself]
    rfl

/-- The update loop leaves pairs not involving the new article's id
untouched. -/
theorem urStep_fold_other (a : Article) (L : List Article) (es : List Edge)
    (u2 v2 : String) (hu2 : ¬ a.id = u2) (hv2 : ¬ a.id = v2) :
    edgeFind (L.foldl (urStep a) es) u2 v2 = edgeFind es u2 v2 := by
  induction L generalizing es with
  | nil => rfl
  | cons x L ih =>
      rw [List.foldl_cons, ih]
      unfold urStep
      split
      · rfl
      · dsimp only
        split
        · exact edgeFind_setEdge_other _ _ _ _ _ _ (fun hc => hu2 hc.1) (fun hc => hv2 hc.1)
        · rfl

/-- The update loop leaves the pair (new id, b) untouched when no iterated
article has id `b`. -/
theorem urStep_fold_keep (a : Article) (L : List Article) (es : List Edge)
    (b : String) (hab : ¬ a.id = b) (hz : ∀ z ∈ L, ¬ z.id = b) :
    edgeFind (L.foldl (urStep a) es) a.id b = edgeFind es a.id b := by
  induction L generalizing es with
  | nil => rfl
  | cons x L ih =>
      rw [List.foldl_cons, ih _ (fun z hzm => hz z (List.mem_cons_of_mem _ hzm))]
      unfold urStep
      split
      · rfl
      · dsimp only
        split
        · exact edgeFind_setEdge_other _ _ _ _ _ _
            (fun hc => hz x (List.mem_cons_self x L) hc.2) (fun hc => hab hc.1)
        · rfl

/-- After the update loop, the edge between the new article and a processed
article `b` holds exactly the fresh detection result. -/
theorem urStep_fold_new (a : Article) (L : List Article) (es : List Edge)
    (b : Article) (hb : b ∈ L) (hba : ¬ b.id = a.id)
    (hnodup : (L.map (·.id)).Nodup)
    (hes : edgeFind es a.id b.id = none) :
    edgeFind (L.foldl (urStep a) es) a.id b.id =
      (if findRelationships a b = [] then none
       else some ⟨findRelationships a b, calculateEdgeWeight (findRelationships a b)⟩) := by
  induction L generalizing es with
  | nil => cases hb
  | cons x L ih =>
      rw [List.foldl_cons]
      have hxnot : x.id ∉ L.map (·.id) := by
        rw [List.map_cons] at hnodup
        exact (List.nodup_cons.mp hnodup).1
      have hnodupL : (L.map (·.id)).Nodup := by
        rw [List.map_cons] at hnodup
        exact (List.nodup_cons.mp hnodup).2
      rcases List.mem_cons.mp hb with rfl | hbL
      · have hstep : edgeFind (urStep a es b) a.id b.id =
            (if findRelationships a b = [] then none
             else some ⟨findRelationships a b, calculateEdgeWeight (findRelationships a b)⟩) := by
          unfold urStep
          rw [if_neg hba]
          dsimp only
          by_cases hrels : findRelationships a b = []
          · rw [if_neg (by simpa using hrels), if_pos hrels]
            exact hes
          · rw [if_pos (by simpa using hrels), if_neg hrels]
            exact edgeFind_setEdge_self _ _ _ _
        have hkeep : ∀ z ∈ L, ¬ z.id = b.id := by
          intro z hz hc
          exact hxnot (hc ▸ List.mem_map.mpr ⟨z, hz, rfl⟩)
        rw [urStep_fold_keep a L _ b.id (fun hc => hba hc.symm) hkeep, hstep]
      · have hxb : ¬ x.id = b.id := by
          intro hc
          exact hxnot (hc ▸ List.mem_map.mpr ⟨b, hbL, rfl⟩)
        refine ih _ hbL hnodupL ?_
        unfold urStep
        split
        · exact hes
        · dsimp only
          split
          · rw [edgeFind_setEdge_other _ _ _ _ _ _
              (fun hc => hxb hc.2) (fun hc => hba hc.1.symm)]
            exact hes
          · exact hes

/-! The graph built by a sequence of insertions. -/

/-- One snoc step of `buildGraph`. -/
theorem buildGraph_snoc (l : List Article) (a : Article) (ha : ¬ a.id = "") :
    buildGraph (l ++ [a]) =
      updateRelationships ⟨mapSet (buildGraph l).articles a, (buildGraph l).edges⟩ a := by
  unfold buildGraph
  rw [List.foldl_append, List.foldl_cons, List.foldl_nil]
  unfold addArticle
  rw [if_neg ha]

/-- With fresh non-empty ids, building preserves the article list. -/
theorem buildGraph_articles (l : List Article) (hne : ∀ x ∈ l, ¬ x.id = "")
    (hnodup : (l.map (·.id)).Nodup) : (buildGraph l).articles = l := by
  induction l using List.reverseRecOn with
  | nil => rfl
  | append_singleton l a ih =>
      have hne2 : ∀ x ∈ l, ¬ x.id = "" := fun x hx => hne x (List.mem_append.mpr (Or.inl hx))
      have ha : ¬ a.id = "" := hne a (List.mem_append.mpr (Or.inr (List.mem_singleton.mpr rfl)))
      have hsplit := List.nodup_append.mp (by rw [← List.map_append]; exact hnodup)
      have hanotin : a.id ∉ l.map (·.id) := by
        intro hc
        exact hsplit.2.2 hc (List.mem_singleton.mpr rfl)
      rw [buildGraph_snoc l a ha]
      show mapSet (buildGraph l).articles a = l ++ [a]
      rw [ih hne2 hsplit.1]
      unfold mapSet
      rw [if_neg (by
        intro hc
        rcases List.any_eq_true.mp hc with ⟨y, hy, hyp⟩
        exact hanotin (of_decide_eq_true hyp ▸ List.mem_map.mpr ⟨y, hy, rfl⟩))]

/-- Every built graph is a reachable store state. -/
theorem buildGraph_reachable (l : List Article) (hne : ∀ x ∈ l, ¬ x.id = "") :
    Reachable (buildGraph l) := by
  induction l using List.reverseRecOn with
  | nil => exact Reachable.empty
  | append_singleton l a ih =>
      have ha : ¬ a.id = "" := hne a (List.mem_append.mpr (Or.inr (List.mem_singleton.mpr rfl)))
      refine Reachable.add (buildGraph l) a _
        (ih (fun x hx => hne x (List.mem_append.mpr (Or.inl hx)))) ?_
      rw [buildGraph_snoc l a ha]
      unfold addArticle
      rw [if_neg ha]

/-- No edge of a well-formed graph touches an absent node or joins a node
to itself. -/
theorem edgeFind_none_cases (g : GraphState) (wf : GraphWF g) (u v : String)
    (h : hasNode g u = false ∨ hasNode g v = false ∨ u = v) :
    edgeFind g.edges u v = none := by
  unfold edgeFind
  have hnone : g.edges.find? (fun e => edgeMatches e u v) = none := by
    rw [List.find?_eq_none]
    intro e he hm
    unfold edgeMatches at hm
    rw [decide_eq_true_eq] at hm
    rcases h with hu | hv | huv
    · rcases hm with ⟨hs, _⟩ | ⟨_, hd⟩
      · have hx := wf.edge_src e he
        rw [hs, hu] at hx
        cases hx
      · have hx := wf.edge_dst e he
        rw [hd, hu] at hx
        cases hx
    · rcases hm with ⟨_, hd⟩ | ⟨hs, _⟩
      · have hx := wf.edge_dst e he
        rw [hd, hv] at hx
        cases hx
      · have hx := wf.edge_src e he
        rw [hs, hv] at hx
        cases hx
    · subst huv
      rcases hm with ⟨hs, hd⟩ | ⟨hs, hd⟩ <;>
        exact wf.edge_ne e he (by rw [hs, hd])
  rw [hnone]
  rfl

/-- Rendering of a fresh detection as an edge profile. -/
theorem profile_of_if (rels : List Relationship) :
    ((if rels = [] then none
      else some (⟨rels, calculateEdgeWeight rels⟩ : EdgeData)).map
        (fun ed => (ed.relationships.map (·.rtype), ed.weight))) =
      (if rels = [] then none else some (rels.map (·.rtype), calculateEdgeWeight rels)) := by
  split <;> rfl

/-- In a graph built from distinct fresh ids with pairwise symmetric
detection, the stored edge profile of any two articles is the detector's
profile on that pair. -/
theorem buildGraph_profile (l : List Article) (hne : ∀ x ∈ l, ¬ x.id = "")
    (hnodup : (l.map (·.id)).Nodup)
    (hsym : ∀ x ∈ l, ∀ y ∈ l, relProfile x y = relProfile y x) :
    ∀ x ∈ l, ∀ y ∈ l, ¬ x.id = y.id →
      edgeProfile (buildGraph l) x.id y.id = relProfile x y := by
  induction l using List.reverseRecOn with
  | nil =>
      intro x hx
      cases hx
  | append_singleton l a ih =>
      have hne2 : ∀ x ∈ l, ¬ x.id = "" := fun x hx => hne x (List.mem_append.mpr (Or.inl hx))
      have ha : ¬ a.id = "" := hne a (List.mem_append.mpr (Or.inr (List.mem_singleton.mpr rfl)))
      have hsplit := List.nodup_append.mp (by rw [← List.map_append]; exact hnodup)
      have hanotin : a.id ∉ l.map (·.id) := by
        intro hc
        exact hsplit.2.2 hc (List.mem_singleton.mpr rfl)
      have harts : (buildGraph l).articles = l := buildGraph_articles l hne2 hsplit.1
      have hwfl : GraphWF (buildGraph l) := reachable_wf _ (buildGraph_reachable l hne2)
      have hg1arts : mapSet (buildGraph l).articles a = l ++ [a] := by
        rw [harts]
        unfold mapSet
        rw [if_neg (by
          intro hc
          rcases List.any_eq_true.mp hc with ⟨y, hy, hyp⟩
          exact hanotin (of_decide_eq_true hyp ▸ List.mem_map.mpr ⟨y, hy, rfl⟩))]
      have hedges : (buildGraph (l ++ [a])).edges =
          (l ++ [a]).foldl (urStep a) (buildGraph l).edges := by
        rw [buildGraph_snoc l a ha]
        show (mapSet (buildGraph l).articles a).foldl (urStep a) (buildGraph l).edges = _
        rw [hg1arts]
      have hLnodup : ((l ++ [a]).map (·.id)).Nodup := hnodup
      have hanode : hasNode (buildGraph l) a.id = false := by
        cases hc : hasNode (buildGraph l) a.id
        · rfl
        · have hmem := (hasNode_iff _ _).mp hc
          rw [harts] at hmem
          exact absurd hmem hanotin
      have hsym2 : ∀ x ∈ l, ∀ y ∈ l, relProfile x y = relProfile y x := fun x hx y hy =>
        hsym x (List.mem_append.mpr (Or.inl hx)) y (List.mem_append.mpr (Or.inl hy))
      intro x hx y hy hxy
      unfold edgeProfile edgeLookup
      rw [hedges]
      rcases List.mem_append.mp hx with hxl | hxa
      · rcases List.mem_append.mp hy with hyl | hya
        · have hxa2 : ¬ a.id = x.id := by
            intro hc
            exact hanotin (hc ▸ List.mem_map.mpr ⟨x, hxl, rfl⟩)
          have hya2 : ¬ a.id = y.id := by
            intro hc
            exact hanotin (hc ▸ List.mem_map.mpr ⟨y, hyl, rfl⟩)
          rw [urStep_fold_other a _ _ _ _ hxa2 hya2]
          have hih := ih hne2 hsplit.1 hsym2 x hxl y hyl hxy
          unfold edgeProfile edgeLookup at hih
          exact hih
        · have hya : y = a := List.mem_singleton.mp hya
          subst hya
          have hes : edgeFind (buildGraph l).edges y.id x.id = none :=
            edgeFind_none_cases _ hwfl _ _ (Or.inl hanode)
          rw [edgeFind_comm, urStep_fold_new y (l ++ [y]) _ x hx
            (fun hc => hxy hc) hLnodup hes, profile_of_if]
          have : relProfile y x = relProfile x y :=
            hsym y hy x hx
          rw [← this]
          rfl
      · have hxa2 : x = a := List.mem_singleton.mp hxa
        subst hxa2
        have hes : edgeFind (buildGraph l).edges x.id y.id = none :=
          edgeFind_none_cases _ hwfl _ _ (Or.inl hanode)
        rw [urStep_fold_new x (l ++ [x]) _ y hy
          (fun hc => hxy hc.symm) hLnodup hes, profile_of_if]
        rfl

/-- Absent endpoints or equal endpoints have no edge profile. -/
theorem buildGraph_profile_none (l : List Article) (hne : ∀ x ∈ l, ¬ x.id = "")
    (u v : String)
    (h : hasNode (buildGraph l) u = false ∨ hasNode (buildGraph l) v = false ∨ u = v) :
    edgeProfile (buildGraph l) u v = none := by
  have hwf := reachable_wf _ (buildGraph_reachable l hne)
  unfold edgeProfile edgeLookup
  rw [edgeFind_none_cases _ hwf u v h]
  rfl

/-- C3 (amended): inserting the same articles in two orders yields the same
node set and the same edge profiles (which pairs are connected, with which
relationship types and aggregated weight), provided every pair of the
articles' primary counties is symmetric in the adjacency table.  (The table
is asymmetric for exactly the pairs Derry–Tyrone, Laois–Westmeath and
Mayo–Roscommon, where the PROXIMITY edge depends on insertion order.) -/
theorem edge_set_insertion_order (l1 l2 : List Article) (hperm : l1.Perm l2)
    (hnodup : (l1.map (·.id)).Nodup) (hne : ∀ x ∈ l1, ¬ x.id = "")
    (hadj : ∀ x ∈ l1, ∀ y ∈ l1,
      adjacentInTable x.metadata.primaryCounty y.metadata.primaryCounty =
      adjacentInTable y.metadata.primaryCounty x.metadata.primaryCounty) :
    ((buildGraph l1).articles).Perm ((buildGraph l2).articles) ∧
    ∀ u v, edgeProfile (buildGraph l1) u v = edgeProfile (buildGraph l2) u v := by
  have hnodup2 : (l2.map (·.id)).Nodup := ((hperm.map (·.id)).nodup_iff).mp hnodup
  have hne2 : ∀ x ∈ l2, ¬ x.id = "" := fun x hx => hne x (hperm.mem_iff.mpr hx)
  have hadj2 : ∀ x ∈ l2, ∀ y ∈ l2,
      adjacentInTable x.metadata.primaryCounty y.metadata.primaryCounty =
      adjacentInTable y.metadata.primaryCounty x.metadata.primaryCounty :=
    fun x hx y hy => hadj x (hperm.mem_iff.mpr hx) y (hperm.mem_iff.mpr hy)
  have hsym1 : ∀ x ∈ l1, ∀ y ∈ l1, relProfile x y = relProfile y x :=
    fun x hx y hy => relProfile_symm x y (hadj x hx y hy)
  have hsym2 : ∀ x ∈ l2, ∀ y ∈ l2, relProfile x y = relProfile y x :=
    fun x hx y hy => relProfile_symm x y (hadj2 x hx y hy)
  have harts1 : (buildGraph l1).articles = l1 := buildGraph_articles l1 hne hnodup
  have harts2 : (buildGraph l2).articles = l2 := buildGraph_articles l2 hne2 hnodup2
  constructor
  · rw [harts1, harts2]
    exact hperm
  · intro u v
    by_cases hu : hasNode (buildGraph l1) u = true
    · by_cases hv : hasNode (buildGraph l1) v = true
      · by_cases huv : u = v
        · rw [buildGraph_profile_none l1 hne u v (Or.inr (Or.inr huv)),
            buildGraph_profile_none l2 hne2 u v (Or.inr (Or.inr huv))]
        · have hu2 := (hasNode_iff _ u).mp hu
          rw [harts1] at hu2
          have hv2 := (hasNode_iff _ v).mp hv
          rw [harts1] at hv2
          rcases List.mem_map.mp hu2 with ⟨x, hxmem, hxid⟩
          rcases List.mem_map.mp hv2 with ⟨y, hymem, hyid⟩
          have hxyid : ¬ x.id = y.id := by
            rw [hxid, hyid]
            exact huv
          have h1 := buildGraph_profile l1 hne hnodup hsym1 x hxmem y hymem hxyid
          have h2 := buildGraph_profile l2 hne2 hnodup2 hsym2 x (hperm.mem_iff.mp hxmem)
            y (hperm.mem_iff.mp hymem) hxyid
          rw [← hxid, ← hyid, h1, h2]
      · have hv2 : hasNode (buildGraph l1) v = false := by
          cases hc : hasNode (buildGraph l1) v
          · rfl
          · exact absurd hc hv
        have hv3 : hasNode (buildGraph l2) v = false := by
          cases hc : hasNode (buildGraph l2) v
          · rfl
          · refine absurd ?_ hv
            rw [hasNode_iff, harts1]
            have := (hasNode_iff _ v).mp hc
            rw [harts2] at this
            rcases List.mem_map.mp this with ⟨x, hxm, hxid⟩
            exact List.mem_map.mpr ⟨x, hperm.mem_iff.mpr hxm, hxid⟩
        rw [buildGraph_profile_none l1 hne u v (Or.inr (Or.inl hv2)),
          buildGraph_profile_none l2 hne2 u v (Or.inr (Or.inl hv3))]
    · have hu2 : hasNode (buildGraph l1) u = false := by
        cases hc : hasNode (buildGraph l1) u
        · rfl
        · exact absurd hc hu
      have hu3 : hasNode (buildGraph l2) u = false := by
        cases hc : hasNode (buildGraph l2) u
        · rfl
        · refine absurd ?_ hu
          rw [hasNode_iff, harts1]
          have := (hasNode_iff _ u).mp hc
          rw [harts2] at this
          rcases List.mem_map.mp this with ⟨x, hxm, hxid⟩
          exact List.mem_map.mpr ⟨x, hperm.mem_iff.mpr hxm, hxid⟩
      rw [buildGraph_profile_none l1 hne u v (Or.inl hu2),
        buildGraph_profile_none l2 hne2 u v (Or.inl hu3)]

/-- Witness for the amended C3: two articles on non-adjacent counties
(Dublin/Wexford, symmetric in the table) inserted in both orders. -/
theorem edge_set_insertion_order_witness :
    ((buildGraph [artA, artB]).articles).Perm ((buildGraph [artB, artA]).articles) ∧
    ∀ u v, edgeProfile (buildGraph [artA, artB]) u v =
      edgeProfile (buildGraph [artB, artA]) u v :=
  edge_set_insertion_order [artA, artB] [artB, artA] (List.Perm.swap artB artA [])
    (by with_unfolding_all decide) (by with_unfolding_all decide)
    (by with_unfolding_all decide)

/-! Dijkstra path reconstruction: the predecessor table invariant and the
annotation of reconstructed weighted paths. -/

/-- The predecessor walk stops immediately on a missing start. -/
theorem predChainAux_none (tbl : List (String × DEntry)) (fuel : Nat) :
    predChainAux tbl fuel none = [] := by
  cases fuel <;> rfl

/-- The per-edge traversal cost is positive whenever the weight is
non-negative (the `0.1` floor handles the zero case). -/
theorem dijkstraEdgeCost_pos (w : Rat) (hw : 0 ≤ w) : 0 < dijkstraEdgeCost w := by
  unfold dijkstraEdgeCost
  by_cases h0 : w = 0
  · rw [if_pos h0]
    norm_num
  · rw [if_neg h0]
    have hpos : 0 < w := lt_of_le_of_ne hw (Ne.symm h0)
    exact one_div_pos.mpr hpos

/-- A successful edge lookup returns the data of a stored edge. -/
theorem edgeFind_mem_data (es : List Edge) (u v : String) (ed : EdgeData)
    (h : edgeFind es u v = some ed) : ∃ e ∈ es, e.data = ed := by
  unfold edgeFind at h
  cases hf : es.find? (fun e => edgeMatches e u v) with
  | none => rw [hf] at h; cases h
  | some e =>
      rw [hf] at h
      exact ⟨e, List.mem_of_find?_eq_some hf,
        Option.some.inj (show some e.data = some ed from h)⟩

/-- A successful table lookup exposes a table member. -/
theorem lookupEntry_mem (tbl : List (String × DEntry)) (k : String) (e : DEntry)
    (h : lookupEntry tbl k = some e) : (k, e) ∈ tbl := by
  unfold lookupEntry at h
  cases hf : tbl.find? (fun p => p.1 = k) with
  | none => rw [hf] at h; cases h
  | some pr =>
      rw [hf] at h
      have hfs := List.find?_some hf
      have hpr : pr.1 = k := of_decide_eq_true hfs
      have he : pr.2 = e := Option.some.inj (show some pr.2 = some e from h)
      rw [← hpr, ← he]
      exact List.mem_of_find?_eq_some hf

/-- With distinct keys, membership determines the table lookup. -/
theorem lookupEntry_of_mem (tbl : List (String × DEntry))
    (hnodup : (tbl.map (·.1)).Nodup) (k : String) (e : DEntry)
    (h : (k, e) ∈ tbl) : lookupEntry tbl k = some e := by
  induction tbl with
  | nil => cases h
  | cons p ps ih =>
      rw [List.map_cons] at hnodup
      rcases List.mem_cons.mp h with heq | hps
      · rw [← heq]
        unfold lookupEntry
        rw [find?_cons_pos2 (fun q : String × DEntry => decide (q.1 = k)) _ _ (by simp)]
        rfl
      · have hk : ¬ p.1 = k := by
          intro hc
          exact (List.nodup_cons.mp hnodup).1
            (by rw [hc]; exact List.mem_map.mpr ⟨(k, e), hps, rfl⟩)
        unfold lookupEntry
        rw [find?_cons_neg2 (fun q : String × DEntry => decide (q.1 = k)) _ _ (by simp [hk])]
        exact ih (List.nodup_cons.mp hnodup).2 hps

/-- Lookup by key commutes with a key-indexed value update. -/
theorem find?_key_map (l : List (String × DEntry)) (f : String → DEntry → DEntry)
    (k : String) :
    (l.map (fun p => (p.1, f p.1 p.2))).find? (fun p => p.1 = k) =
      (l.find? (fun p => p.1 = k)).map (fun p => (p.1, f p.1 p.2)) := by
  induction l with
  | nil => rfl
  | cons p ps ih =>
      rw [List.map_cons]
      by_cases hk : p.1 = k
      · rw [find?_cons_pos2 (fun q : String × DEntry => decide (q.1 = k)) _ _ (by simp [hk]),
          find?_cons_pos2 (fun q : String × DEntry => decide (q.1 = k)) _ _ (by simp [hk])]
        rfl
      · rw [find?_cons_neg2 (fun q : String × DEntry => decide (q.1 = k)) _ _ (by simp [hk]),
          find?_cons_neg2 (fun q : String × DEntry => decide (q.1 = k)) _ _ (by simp [hk]), ih]

/-- Relaxation acts entrywise on the lookup. -/
theorem lookupEntry_relaxOne (g : GraphState) (u : String) (du : Rat)
    (tbl : List (String × DEntry)) (k : String) :
    lookupEntry (relaxOne g u du tbl) k =
      (lookupEntry tbl k).map (relaxStep g u du k) := by
  unfold lookupEntry relaxOne
  rw [find?_key_map tbl (relaxStep g u du) k]
  cases hf : tbl.find? (fun p => p.1 = k) with
  | none => rfl
  | some pr =>
      have hfs := List.find?_some hf
      have hk : pr.1 = k := of_decide_eq_true hfs
      show some (relaxStep g u du pr.1 pr.2) = some (relaxStep g u du k pr.2)
      rw [hk]

/-- A pointwise-weaker filter keeps at most as many elements. -/
theorem filter_length_le {α : Type} (p q : α → Bool) (l : List α)
    (himp : ∀ x ∈ l, p x = true → q x = true) :
    (l.filter p).length ≤ (l.filter q).length := by
  induction l with
  | nil => exact Nat.le_refl 0
  | cons a l ih =>
      have himp2 : ∀ x ∈ l, p x = true → q x = true :=
        fun x hx => himp x (List.mem_cons_of_mem a hx)
      rw [List.filter_cons, List.filter_cons]
      cases hp : p a
      · rw [if_neg (by simp [hp])]
        cases hq : q a
        · rw [if_neg (by simp [hq])]
          exact ih himp2
        · rw [if_pos rfl]
          exact Nat.le_succ_of_le (ih himp2)
      · have hqa : q a = true := himp a (List.mem_cons_self a l) hp
        rw [if_pos rfl, if_pos hqa]
        exact Nat.succ_le_succ (ih himp2)

/-- A pointwise-weaker filter misses strictly fewer elements when some
member passes the weak test but fails the strong one. -/
theorem filter_length_lt {α : Type} (p q : α → Bool) (l : List α)
    (himp : ∀ x ∈ l, p x = true → q x = true) (x : α) (hx : x ∈ l)
    (hqx : q x = true) (hpx : p x = false) :
    (l.filter p).length < (l.filter q).length := by
  induction l with
  | nil => cases hx
  | cons a l ih =>
      have himp2 : ∀ y ∈ l, p y = true → q y = true :=
        fun y hy => himp y (List.mem_cons_of_mem a hy)
      rw [List.filter_cons, List.filter_cons]
      rcases List.mem_cons.mp hx with rfl | hxl
      · rw [if_neg (by simp [hpx]), if_pos hqx]
        exact Nat.lt_succ_of_le (filter_length_le p q l himp2)
      · cases hp : p a
        · rw [if_neg (by simp [hp])]
          cases hq : q a
          · rw [if_neg (by simp [hq])]
            exact ih himp2 hxl
          · rw [if_pos rfl]
            exact Nat.lt_succ_of_lt (ih himp2 hxl)
        · have hqa : q a = true := himp a (List.mem_cons_self a l) hp
          rw [if_pos rfl, if_pos hqa]
          exact Nat.succ_lt_succ (ih himp2 hxl)

/-- The node settled by `pickMin` is an unvisited table entry holding
exactly the returned finite distance. -/
theorem pickMin_spec (tbl : List (String × DEntry)) (u : String) (du : Rat)
    (h : pickMin tbl = some (u, du)) :
    ∃ e, (u, e) ∈ tbl ∧ e.dist = some du ∧ e.visited = false := by
  have aux : ∀ (l : List (String × DEntry)) (acc : Option (String × Rat)),
      (∀ p ∈ l, p ∈ tbl) →
      (∀ k d, acc = some (k, d) →
        ∃ e, (k, e) ∈ tbl ∧ e.dist = some d ∧ e.visited = false) →
      ∀ k d, (l.foldl (fun best p =>
          match p.2.dist, p.2.visited with
          | some d0, false =>
              match best with
              | none => some (p.1, d0)
              | some b => if d0 < b.2 then some (p.1, d0) else some b
          | _, _ => best) acc) = some (k, d) →
        ∃ e, (k, e) ∈ tbl ∧ e.dist = some d ∧ e.visited = false := by
    intro l
    induction l with
    | nil => intro acc _ hacc k d h0; exact hacc k d h0
    | cons p l ih =>
        intro acc hsub hacc k d h0
        rw [List.foldl_cons] at h0
        refine ih _ (fun z hz => hsub z (List.mem_cons_of_mem p hz)) ?_ k d h0
        intro k2 d2 hstep
        have hpmem : p ∈ tbl := hsub p (List.mem_cons_self p l)
        obtain ⟨pk, pe⟩ := p
        obtain ⟨pd, pp, pv⟩ := pe
        cases pd with
        | none => exact hacc k2 d2 hstep
        | some pdv =>
            cases pv with
            | true => exact hacc k2 d2 hstep
            | false =>
                cases acc with
                | none =>
                    dsimp only at hstep
                    injection hstep with h1
                    injection h1 with ha hb
                    subst ha
                    subst hb
                    exact ⟨⟨some pdv, pp, false⟩, hpmem, rfl, rfl⟩
                | some b =>
                    dsimp only at hstep
                    split at hstep
                    · injection hstep with h1
                      injection h1 with ha hb
                      subst ha
                      subst hb
                      exact ⟨⟨some pdv, pp, false⟩, hpmem, rfl, rfl⟩
                    · exact hacc k2 d2 hstep
  unfold pickMin at h
  exact aux tbl none (fun p hp => hp) (fun k d hc => by cases hc) u du h

/-- The three possible outcomes of relaxing one table entry: the settled
node is marked visited, the entry is untouched, or the entry is improved
along an incident edge. -/
theorem relaxStep_cases (g : GraphState) (u : String) (du : Rat) (k : String)
    (e : DEntry) :
    (k = u ∧ relaxStep g u du k e = { e with visited := true }) ∨
    relaxStep g u du k e = e ∨
    (∃ ed, edgeLookup g u k = some ed ∧
      relaxStep g u du k e =
        ⟨some (du + dijkstraEdgeCost ed.weight), some u, e.visited⟩ ∧
      ∀ old, e.dist = some old → du + dijkstraEdgeCost ed.weight < old) := by
  unfold relaxStep
  by_cases hk : k = u
  · rw [if_pos hk]
    exact Or.inl ⟨hk, rfl⟩
  · rw [if_neg hk]
    cases hel : edgeLookup g u k with
    | none => exact Or.inr (Or.inl rfl)
    | some ed =>
        dsimp only
        cases hde : e.dist with
        | none =>
            exact Or.inr (Or.inr ⟨ed, rfl, rfl, fun old h => nomatch h⟩)
        | some old0 =>
            dsimp only
            by_cases hlt : du + dijkstraEdgeCost ed.weight < old0
            · rw [if_pos hlt]
              refine Or.inr (Or.inr ⟨ed, rfl, rfl, ?_⟩)
              intro old h
              injection h with h2
              rw [← h2]
              exact hlt
            · rw [if_neg hlt]
              exact Or.inr (Or.inl rfl)

/-- Relaxation never increases a finite tentative distance. -/
theorem relaxStep_dist_mono (g : GraphState) (u : String) (du : Rat) (k : String)
    (e : DEntry) (d : Rat) (hd : e.dist = some d) :
    ∃ d2, (relaxStep g u du k e).dist = some d2 ∧ d2 ≤ d := by
  rcases relaxStep_cases g u du k e with ⟨hku, heq⟩ | heq | ⟨ed, hed, heq, hlt⟩
  · exact ⟨d, by rw [heq]; exact hd, le_refl d⟩
  · exact ⟨d, by rw [heq]; exact hd, le_refl d⟩
  · exact ⟨du + dijkstraEdgeCost ed.weight, by rw [heq],
      le_of_lt (hlt d hd)⟩

/-- Settling the node chosen by `pickMin` preserves the table invariant
(positive edge costs keep the source pinned and predecessor bounds valid). -/
theorem dinv_relax (g : GraphState) (source u : String) (du : Rat)
    (tbl : List (String × DEntry)) (inv : DInv g source tbl)
    (hw : ∀ e ∈ g.edges, 0 ≤ e.data.weight)
    (hpick : pickMin tbl = some (u, du)) :
    DInv g source (relaxOne g u du tbl) := by
  obtain ⟨eu, hmemu, hdu, hvisu⟩ := pickMin_spec tbl u du hpick
  have hlu : lookupEntry tbl u = some eu := lookupEntry_of_mem tbl inv.keys_nodup u eu hmemu
  have hdu0 : 0 ≤ du := inv.nonneg (u, eu) hmemu du hdu
  have hcost : ∀ k ed, edgeLookup g u k = some ed → 0 < dijkstraEdgeCost ed.weight := by
    intro k ed hed
    obtain ⟨e, hmem, hdata⟩ := edgeFind_mem_data g.edges u k ed hed
    exact dijkstraEdgeCost_pos _ (by rw [← hdata]; exact hw e hmem)
  have hkeys : (relaxOne g u du tbl).map (·.1) = tbl.map (·.1) := by
    unfold relaxOne
    rw [List.map_map]
    rfl
  have hlu2 : lookupEntry (relaxOne g u du tbl) u = some { eu with visited := true } := by
    rw [lookupEntry_relaxOne, hlu]
    show some (relaxStep g u du u eu) = _
    unfold relaxStep
    rw [if_pos rfl]
  constructor
  · rw [hkeys]
    exact inv.keys_nodup
  · obtain ⟨es0, hls, hds, hps⟩ := inv.src_mem
    rcases relaxStep_cases g u du source es0 with ⟨hku, heq⟩ | heq | ⟨ed, hed, heq, hlt⟩
    · refine ⟨{ es0 with visited := true }, ?_, hds, hps⟩
      rw [lookupEntry_relaxOne, hls]
      show some (relaxStep g u du source es0) = _
      rw [heq]
    · refine ⟨es0, ?_, hds, hps⟩
      rw [lookupEntry_relaxOne, hls]
      show some (relaxStep g u du source es0) = _
      rw [heq]
    · exfalso
      have h1 := hlt 0 hds
      have h2 := hcost source ed hed
      linarith
  · intro p hp dd hdd
    unfold relaxOne at hp
    obtain ⟨pr, hpr, rfl⟩ := List.mem_map.mp hp
    dsimp only at hdd
    rcases relaxStep_cases g u du pr.1 pr.2 with ⟨hku, heq⟩ | heq | ⟨ed, hed, heq, hlt⟩
    · rw [heq] at hdd
      exact inv.nonneg pr hpr dd hdd
    · rw [heq] at hdd
      exact inv.nonneg pr hpr dd hdd
    · rw [heq] at hdd
      have hnd : du + dijkstraEdgeCost ed.weight = dd :=
        Option.some.inj (show some (du + dijkstraEdgeCost ed.weight) = some dd from hdd)
      have h2 := hcost pr.1 ed hed
      linarith
  · intro p hp q hq
    unfold relaxOne at hp
    obtain ⟨pr, hpr, rfl⟩ := List.mem_map.mp hp
    dsimp only at hq
    rcases relaxStep_cases g u du pr.1 pr.2 with ⟨hku, heq⟩ | heq | ⟨ed, hed, heq, hlt⟩
    · rw [heq] at hq
      obtain ⟨ed, hed, d, dq, eq2, hd, hlq, hdq, hle⟩ := inv.pred_ok pr hpr q hq
      obtain ⟨dq2, hdq2, hle2⟩ := relaxStep_dist_mono g u du q eq2 dq hdq
      refine ⟨ed, hed, d, dq2, relaxStep g u du q eq2, ?_, ?_, hdq2, ?_⟩
      · dsimp only
        rw [heq]
        exact hd
      · rw [lookupEntry_relaxOne, hlq]
        rfl
      · linarith
    · rw [heq] at hq
      obtain ⟨ed, hed, d, dq, eq2, hd, hlq, hdq, hle⟩ := inv.pred_ok pr hpr q hq
      obtain ⟨dq2, hdq2, hle2⟩ := relaxStep_dist_mono g u du q eq2 dq hdq
      refine ⟨ed, hed, d, dq2, relaxStep g u du q eq2, ?_, ?_, hdq2, ?_⟩
      · dsimp only
        rw [heq]
        exact hd
      · rw [lookupEntry_relaxOne, hlq]
        rfl
      · linarith
    · rw [heq] at hq
      have hqu : u = q := Option.some.inj (show some u = some q from hq)
      refine ⟨ed, by rw [← hqu]; exact hed, du + dijkstraEdgeCost ed.weight, du,
        { eu with visited := true }, ?_, ?_, hdu, le_refl _⟩
      · dsimp only
        rw [heq]
      · rw [← hqu]
        exact hlu2
  · intro p hp hpsrc hpdist
    unfold relaxOne at hp
    obtain ⟨pr, hpr, rfl⟩ := List.mem_map.mp hp
    rcases relaxStep_cases g u du pr.1 pr.2 with ⟨hku, heq⟩ | heq | ⟨ed, hed, heq, hlt⟩
    · dsimp only
      rw [heq]
      refine inv.fin_pred pr hpr hpsrc ?_
      dsimp only at hpdist
      rw [heq] at hpdist
      exact hpdist
    · dsimp only
      rw [heq]
      refine inv.fin_pred pr hpr hpsrc ?_
      dsimp only at hpdist
      rw [heq] at hpdist
      exact hpdist
    · dsimp only
      rw [heq]
      exact fun hc => Option.noConfusion hc

/-- The Dijkstra loop preserves the table invariant. -/
theorem dinv_loop (g : GraphState) (source : String)
    (hw : ∀ e ∈ g.edges, 0 ≤ e.data.weight) :
    ∀ (fuel : Nat) (tbl : List (String × DEntry)), DInv g source tbl →
      DInv g source (dijkstraLoop g fuel tbl)
  | 0, tbl, inv => inv
  | fuel + 1, tbl, inv => by
      unfold dijkstraLoop
      cases hp : pickMin tbl with
      | none => exact inv
      | some pr =>
          obtain ⟨u, du⟩ := pr
          exact dinv_loop g source hw fuel _ (dinv_relax g source u du tbl inv hw hp)

/-- Lookup in the freshly initialised Dijkstra table. -/
theorem lookupEntry_init (l : List Article) (source k : String) :
    lookupEntry (l.map (fun a =>
        (a.id, (⟨if a.id = source then some 0 else none, none, false⟩ : DEntry)))) k =
      (l.find? (fun a => a.id = k)).map
        (fun a => (⟨if a.id = source then some 0 else none, none, false⟩ : DEntry)) := by
  induction l with
  | nil => rfl
  | cons a l ih =>
      rw [List.map_cons]
      by_cases hk : a.id = k
      · unfold lookupEntry
        rw [find?_cons_pos2 (fun q : String × DEntry => decide (q.1 = k)) _ _ (by simp [hk]),
          find?_cons_pos2 (fun a : Article => decide (a.id = k)) _ _ (by simp [hk])]
        rfl
      · unfold lookupEntry
        rw [find?_cons_neg2 (fun q : String × DEntry => decide (q.1 = k)) _ _ (by simp [hk]),
          find?_cons_neg2 (fun a : Article => decide (a.id = k)) _ _ (by simp [hk])]
        exact ih

/-- The full Dijkstra run from an existing source satisfies the table
invariant. -/
theorem dinv_dijkstra (g : GraphState) (source : String)
    (hnodup : (g.articles.map (·.id)).Nodup)
    (hsrc : hasNode g source = true)
    (hw : ∀ e ∈ g.edges, 0 ≤ e.data.weight) :
    DInv g source (dijkstra g source) := by
  unfold dijkstra
  dsimp only
  apply dinv_loop g source hw
  constructor
  · rw [List.map_map]
    exact hnodup
  · have hmem : source ∈ g.articles.map (·.id) := (hasNode_iff g source).mp hsrc
    obtain ⟨a, ha, haid⟩ := List.mem_map.mp hmem
    have hfind : ∃ a0, g.articles.find? (fun x => x.id = source) = some a0 := by
      cases hf : g.articles.find? (fun x => x.id = source) with
      | none =>
          rw [List.find?_eq_none] at hf
          exact absurd (decide_eq_true haid) (hf a ha)
      | some a0 => exact ⟨a0, rfl⟩
    obtain ⟨a0, hf⟩ := hfind
    have hfs := List.find?_some hf
    have ha0 : a0.id = source := of_decide_eq_true hfs
    refine ⟨⟨some 0, none, false⟩, ?_, rfl, rfl⟩
    rw [lookupEntry_init, hf]
    show some (⟨if a0.id = source then some 0 else none, none, false⟩ : DEntry) = _
    rw [if_pos ha0]
  · intro p hp dd hdd
    obtain ⟨a, ha, rfl⟩ := List.mem_map.mp hp
    dsimp only at hdd
    by_cases has : a.id = source
    · rw [if_pos has] at hdd
      have h0 : (0 : Rat) = dd := Option.some.inj hdd
      rw [← h0]
    · rw [if_neg has] at hdd
      cases hdd
  · intro p hp q hq
    obtain ⟨a, ha, rfl⟩ := List.mem_map.mp hp
    dsimp only at hq
    exact Option.noConfusion hq
  · intro p hp hpsrc hpdist
    obtain ⟨a, ha, rfl⟩ := List.mem_map.mp hp
    exfalso
    apply hpdist
    dsimp only
    rw [if_neg (show ¬ a.id = source from hpsrc)]

/-- Under the table invariant, the predecessor walk from any node with a
finite distance is a non-empty edge-linked chain ending at the source, and
the strictly decreasing distances bound its length by the entry count. -/
theorem chain_spec (g : GraphState) (source : String) (tbl : List (String × DEntry))
    (inv : DInv g source tbl) (hw : ∀ e ∈ g.edges, 0 ≤ e.data.weight) :
    ∀ (fuel : Nat) (cur : String) (entry : DEntry) (d : Rat),
      lookupEntry tbl cur = some entry → entry.dist = some d →
      countBelow tbl d < fuel →
      predChainAux tbl fuel (some cur) ≠ [] ∧
      (predChainAux tbl fuel (some cur)).head? = some cur ∧
      (predChainAux tbl fuel (some cur)).getLast? = some source ∧
      List.Chain' (fun a b => ∃ ed, edgeLookup g b a = some ed)
        (predChainAux tbl fuel (some cur)) := by
  intro fuel
  induction fuel with
  | zero =>
      intro cur entry d _ _ hcb
      exact absurd hcb (Nat.not_lt_zero _)
  | succ fuel ih =>
      intro cur entry d hlook hdist hcb
      have hstep : predChainAux tbl (fuel + 1) (some cur) =
          cur :: predChainAux tbl fuel entry.pred := by
        show cur :: predChainAux tbl fuel ((lookupEntry tbl cur).bind (fun e => e.pred)) = _
        rw [hlook]
        rfl
      rw [hstep]
      cases hpred : entry.pred with
      | none =>
          have hsrc : cur = source := by
            by_contra hne
            exact inv.fin_pred (cur, entry) (lookupEntry_mem tbl cur entry hlook) hne
              (by rw [hdist]; exact fun hc => Option.noConfusion hc) hpred
          subst hsrc
          rw [predChainAux_none]
          exact ⟨List.cons_ne_nil _ _, rfl, rfl, List.chain'_singleton _⟩
      | some qid =>
          obtain ⟨ed, hed, d0, dq, eq2, hd0, hlq, hdq, hle⟩ :=
            inv.pred_ok (cur, entry) (lookupEntry_mem tbl cur entry hlook) qid hpred
          have hd0d : d0 = d := Option.some.inj (hd0 ▸ hdist)
          have hcostp : 0 < dijkstraEdgeCost ed.weight := by
            obtain ⟨e, hmem, hdata⟩ := edgeFind_mem_data g.edges qid cur ed hed
            exact dijkstraEdgeCost_pos _ (by rw [← hdata]; exact hw e hmem)
          have hdqd : dq < d := by
            have h1 : dq < dq + dijkstraEdgeCost ed.weight := by linarith
            have h2 : dq + dijkstraEdgeCost ed.weight ≤ d := by rw [← hd0d]; exact hle
            linarith
          have hcb2 : countBelow tbl dq < fuel := by
            have hlt : countBelow tbl dq < countBelow tbl d := by
              unfold countBelow
              refine filter_length_lt _ _ tbl ?_ (qid, eq2)
                (lookupEntry_mem tbl qid eq2 hlq) ?_ ?_
              · intro x hx hpx
                dsimp only at hpx ⊢
                cases hxd : x.2.dist with
                | none =>
                    rw [hxd] at hpx
                    exact Bool.noConfusion (show false = true from hpx)
                | some d2 =>
                    rw [hxd] at hpx
                    exact decide_eq_true (lt_trans (of_decide_eq_true
                      (show decide (d2 < dq) = true from hpx)) hdqd)
              · dsimp only
                rw [hdq]
                exact decide_eq_true hdqd
              · dsimp only
                rw [hdq]
                exact decide_eq_false (lt_irrefl dq)
            omega
          obtain ⟨hne2, hhead2, hlast2, hchain2⟩ := ih qid eq2 dq hlq hdq hcb2
          refine ⟨List.cons_ne_nil _ _, rfl, ?_, ?_⟩
          · obtain ⟨t, ts, hts⟩ := List.exists_cons_of_ne_nil hne2
            rw [hts, List.getLast?_cons_cons, ← hts]
            exact hlast2
          · rw [List.chain'_cons']
            refine ⟨?_, hchain2⟩
            intro b hb
            rw [hhead2] at hb
            have hbq : b = qid := by
              cases hb
              rfl
            rw [hbq]
            exact ⟨ed, hed⟩

/-- The ids of an annotated path are the annotated id sequence itself. -/
theorem annotate_ids (g : GraphState) :
    ∀ ids, (annotate g ids).map (fun x => x.id) = ids
  | [] => rfl
  | [x] => rfl
  | x :: y :: rest => by
      unfold annotate
      cases h : edgeLookup g x y with
      | none =>
          rw [List.map_cons, annotate_ids g (y :: rest)]
          rfl
      | some ed =>
          rw [List.map_cons, annotate_ids g (y :: rest)]
          rfl

/-- An annotated non-empty id sequence starts with an item carrying the
first id. -/
theorem annotate_shape (g : GraphState) (x : String) (rest : List String) :
    ∃ item t, annotate g (x :: rest) = item :: t ∧ item.id = x := by
  cases rest with
  | nil => exact ⟨mkPlainItem g x, [], rfl, rfl⟩
  | cons y r2 =>
      unfold annotate
      cases h : edgeLookup g x y with
      | none => exact ⟨mkPlainItem g x, _, rfl, rfl⟩
      | some ed => exact ⟨_, _, rfl, rfl⟩

/-- Annotating an edge-linked id chain yields a correctly annotated path:
each non-terminal element carries the data of the edge to the next one. -/
theorem annotate_ok (g : GraphState) :
    ∀ ids, List.Chain' (fun x y => ∃ ed, edgeLookup g x y = some ed) ids →
      annotatedPathOk g (annotate g ids)
  | [], _ => trivial
  | [_], _ => trivial
  | x :: y :: rest, h => by
      obtain ⟨⟨ed, hed⟩, h2⟩ := List.chain'_cons.mp h
      have htail := annotate_ok g (y :: rest) h2
      obtain ⟨item2, t2, heq, hid⟩ := annotate_shape g y rest
      unfold annotate
      rw [hed, heq]
      rw [heq] at htail
      refine ⟨⟨ed, ?_, rfl, rfl⟩, htail⟩
      rw [hid]
      exact hed

/-- A successful distance query passes both node-existence guards. -/
theorem calcDist_ok_nodes (g : GraphState) (u v : String) (w : Bool) (r : DistResult)
    (h : calculateDistance g u v w = .ok r) :
    hasNode g u = true ∧ hasNode g v = true := by
  unfold calculateDistance at h
  by_cases h1 : hasNode g u = true
  · by_cases h2 : hasNode g v = true
    · exact ⟨h1, h2⟩
    · rw [if_neg (not_not_intro h1), if_pos h2] at h
      cases h
  · rw [if_pos h1] at h
    cases h

/-- C7 (amended): for a finite-distance weighted query between existing
nodes, the returned path is a non-empty ordered list of nodes running from
the source to the target in which every non-terminal element carries the
relationship evidence and weight of the edge to the next element; the
unweighted (BFS) mode, by contrast, returns plain article records whose
`relationships` and `edgeWeight` fields are always absent. -/
theorem weighted_path_annotated (g : GraphState) (u v : String) (r : DistResult)
    (d : Rat) (hnodup : (g.articles.map (·.id)).Nodup)
    (hw : ∀ e ∈ g.edges, 0 ≤ e.data.weight)
    (hok : calculateDistance g u v true = .ok r)
    (hfin : r.distance = some d) :
    (r.path ≠ [] ∧
     (r.path.map (fun x => x.id)).head? = some u ∧
     (r.path.map (fun x => x.id)).getLast? = some v ∧
     annotatedPathOk g r.path) ∧
    (∀ r2, calculateDistance g u v false = .ok r2 →
      ∀ item ∈ r2.path, item.relationships = none ∧ item.edgeWeight = none) := by
  obtain ⟨hnu, hnv⟩ := calcDist_ok_nodes g u v true r hok
  constructor
  · unfold calculateDistance at hok
    rw [if_neg (not_not_intro hnu), if_neg (not_not_intro hnv)] at hok
    by_cases huv : u = v
    · rw [if_pos huv] at hok
      have hr : r = { distance := some 0, path := [mkPlainItem g u] } :=
        (Except.ok.inj hok).symm
      subst hr
      subst huv
      exact ⟨List.cons_ne_nil _ _, rfl, rfl, True.intro⟩
    · rw [if_neg huv, if_pos rfl] at hok
      have hr : r = calculateWeightedDistance g u v := (Except.ok.inj hok).symm
      subst hr
      cases hmatch : (lookupEntry (dijkstra g u) v).bind (fun e => e.dist) with
      | none =>
          exfalso
          have hDist : (calculateWeightedDistance g u v).distance = none := by
            unfold calculateWeightedDistance
            dsimp only
            rw [hmatch]
          rw [hDist] at hfin
          cases hfin
      | some d2 =>
          have hcw : calculateWeightedDistance g u v =
              { distance := some d2, path := reconstructPath g v (dijkstra g u) } := by
            unfold calculateWeightedDistance
            dsimp only
            rw [hmatch]
          obtain ⟨entry, hlookv, hdistv⟩ : ∃ entry,
              lookupEntry (dijkstra g u) v = some entry ∧ entry.dist = some d2 := by
            cases hlo : lookupEntry (dijkstra g u) v with
            | none => rw [hlo] at hmatch; cases hmatch
            | some entry =>
                rw [hlo] at hmatch
                exact ⟨entry, rfl, hmatch⟩
          have inv := dinv_dijkstra g u hnodup hnu hw
          have hcb : countBelow (dijkstra g u) d2 < (dijkstra g u).length + 1 :=
            Nat.lt_succ_of_le (List.length_filter_le _ _)
          obtain ⟨hcne, hchead, hclast, hchain⟩ :=
            chain_spec g u (dijkstra g u) inv hw ((dijkstra g u).length + 1) v entry d2
              hlookv hdistv hcb
          have hpath : (calculateWeightedDistance g u v).path =
              annotate g (predChainAux (dijkstra g u) ((dijkstra g u).length + 1)
                (some v)).reverse := by
            rw [hcw]
            rfl
          refine ⟨?_, ?_, ?_, ?_⟩
          · rw [hpath]
            intro hc
            have hmap := annotate_ids g (predChainAux (dijkstra g u)
              ((dijkstra g u).length + 1) (some v)).reverse
            rw [hc] at hmap
            exact hcne (List.reverse_eq_nil_iff.mp hmap.symm)
          · rw [hpath, annotate_ids, List.head?_reverse]
            exact hclast
          · rw [hpath, annotate_ids, List.getLast?_reverse]
            exact hchead
          · rw [hpath]
            exact annotate_ok g _ (List.chain'_reverse.mpr hchain)
  · intro r2 hok2 item hitem
    unfold calculateDistance at hok2
    rw [if_neg (not_not_intro hnu), if_neg (not_not_intro hnv)] at hok2
    by_cases huv : u = v
    · rw [if_pos huv] at hok2
      have hr2 : r2 = { distance := some 0, path := [mkPlainItem g u] } :=
        (Except.ok.inj hok2).symm
      subst hr2
      have hitem2 : item = mkPlainItem g u := List.mem_singleton.mp hitem
      rw [hitem2]
      exact ⟨rfl, rfl⟩
    · rw [if_neg huv, if_neg (fun hc => Bool.noConfusion hc)] at hok2
      have hr2 : r2 = calculateUnweightedDistance g u v := (Except.ok.inj hok2).symm
      subst hr2
      unfold calculateUnweightedDistance at hitem
      cases hb : bfsLoop g v (g.articles.length + 1) [(u, [u])] [u] with
      | none =>
          rw [hb] at hitem
          dsimp only at hitem
          cases hitem
      | some pth =>
          rw [hb] at hitem
          dsimp only at hitem
          obtain ⟨id0, hid0, rfl⟩ := List.mem_map.mp hitem
          exact ⟨rfl, rfl⟩

/-- Witness for the amended C7: the chain query A→C in the chain graph has
distance 3.5, and its weighted path is the annotated node sequence a, b, c. -/
theorem weighted_path_annotated_witness :
    calculateDistance chainGraph "a" "c" true = .ok chainWeightedResult ∧
    chainWeightedResult.path ≠ [] ∧
    (chainWeightedResult.path.map (fun x => x.id)).head? = some "a" ∧
    (chainWeightedResult.path.map (fun x => x.id)).getLast? = some "c" ∧
    annotatedPathOk chainGraph chainWeightedResult.path := by
  have hok : calculateDistance chainGraph "a" "c" true = .ok chainWeightedResult := by
    with_unfolding_all rfl
  have h := weighted_path_annotated chainGraph "a" "c" chainWeightedResult (7/2)
    (by with_unfolding_all decide) (by with_unfolding_all decide) hok
    (by with_unfolding_all rfl)
  exact ⟨hok, h.1.1, h.1.2.1, h.1.2.2.1, h.1.2.2.2⟩

end ArticleRel
